import Mathlib

/-!
Verification of the S2S presentation assembler and binder.

Part A embeds `archive/generatePPT_template.py` (package-level slide cloning:
`build_from_json` and its helpers `_next_rid`, `_update_content_types`,
`_update_presentation_rels`, `_update_presentation_xml`, `clone_tags`).
Part B embeds `generatePPT.py` (the shape-content binder `_fill_slide` with its
matching helpers, and the layout adjuster `_adjust_text_shape` /
`_estimate_text_width` / `_shrink_font`).

Modelling conventions:
- zip member paths are slash-separated component lists (`PartPath`); the
  Python code's string paths "a/b/c" correspond to `["a","b","c"]`;
- byte buffers are opaque `List Nat` values (`Bytes`); the three XML parts the
  assembler rewrites are carried in structured form (`OutData`), abstracting
  `xml.etree` parsing/serialisation, and per-slide relationship files are
  parsed through the template's `relsOf` oracle (the `ET.fromstring` call in
  `clone_tags`);
- Python `f"...{n}..."` decimal formatting is `decDigits`; regex matches such
  as `slide(\d+)\.xml` and the `startswith`/`isdigit` checks are `extractNum`;
- EMU geometry is `Int` (python-pptx stores EMU integers), font sizes are
  exact rationals in points, and Python's `int()` truncation toward zero is
  `pyInt`.
-/

namespace S2S

/-! ### Decimal rendering and parsing of numbers embedded in names -/

/-- Decimal digit characters of `n`, most significant first (fuel-based so the
kernel can evaluate it). -/
def decDigitsGo (fuel n : Nat) : List Char :=
  match fuel with
  | 0 => []
  | fuel + 1 =>
    if n < 10 then [Nat.digitChar n]
    else decDigitsGo fuel (n / 10) ++ [Nat.digitChar (n % 10)]

/-- Decimal rendering of a natural number, as Python's string formatting
produces it. -/
def decDigits (n : Nat) : List Char := decDigitsGo (n + 1) n

/-- Numeric value of a decimal digit character. -/
def digitVal (c : Char) : Nat := c.toNat - 48

/-- Value of a string of decimal digits (Python `int(...)` on a digit run). -/
def parseDigits (cs : List Char) : Nat := cs.foldl (fun a c => a * 10 + digitVal c) 0

/-- `extractNum pre suf cs` returns `some k` exactly when
`cs = pre ++ digits ++ suf` with a nonempty digit run valued `k`; this models
a regex fullmatch `pre(\d+)suf`, and with `suf = []` Python's
`startswith(pre) and rest.isdigit()` check. -/
def extractNum (pre suf cs : List Char) : Option Nat :=
  if pre.isPrefixOf cs then
    let rest := cs.drop pre.length
    let ds := rest.takeWhile Char.isDigit
    let tl := rest.drop ds.length
    if ds.isEmpty then none
    else if tl = suf then some (parseDigits ds) else none
  else none

/-- Python `s.startswith(pre)`. -/
def strStarts (s pre : String) : Bool := pre.data.isPrefixOf s.data

/-- Python `s.strip()` (drop leading and trailing whitespace), on character
lists so the kernel can evaluate it. -/
def stripChars (cs : List Char) : List Char :=
  ((cs.dropWhile Char.isWhitespace).reverse.dropWhile Char.isWhitespace).reverse

/-- Python `s.strip()`. -/
def pyStrip (s : String) : String := String.mk (stripChars s.data)

/-- Split a character list on a separator character (Python `s.split(sep)`
for one-character separators). -/
def splitOnCharGo (sep : Char) : List Char → List Char → List (List Char)
  | [], acc => [acc.reverse]
  | c :: rest, acc =>
    if c = sep then acc.reverse :: splitOnCharGo sep rest []
    else splitOnCharGo sep rest (c :: acc)

/-- Python `s.split(sep)` for a one-character separator. -/
def splitOnChar (s : String) (sep : Char) : List String :=
  (splitOnCharGo sep s.data []).map String.mk

/-- Exact rational addition, written out on numerators and denominators so
the kernel can evaluate it (`qAdd_eq` proves it is ordinary addition). -/
def qAdd (a b : ℚ) : ℚ := Rat.divInt (a.num * b.den + b.num * a.den) (a.den * b.den)

/-- Exact rational subtraction (see `qAdd`). -/
def qSub (a b : ℚ) : ℚ := Rat.divInt (a.num * b.den - b.num * a.den) (a.den * b.den)

/-- Exact rational multiplication (see `qAdd`). -/
def qMul (a b : ℚ) : ℚ := Rat.divInt (a.num * b.num) (a.den * b.den)

/-- Exact rational division, with Python's convention never reached on the
embedded paths (division by zero yields 0; the source guards or crashes
first). See `qAdd`. -/
def qDiv (a b : ℚ) : ℚ := Rat.divInt (a.num * b.den) (a.den * b.num)

/-- Decidable equality for `Except` results, so concrete runs can be checked
by `decide`. -/
instance {ε α : Type} [DecidableEq ε] [DecidableEq α] : DecidableEq (Except ε α) := fun a b =>
  match a, b with
  | .error e, .error f =>
    if h : e = f then isTrue (by rw [h]) else isFalse (by intro hc; cases hc; exact h rfl)
  | .error _, .ok _ => isFalse (by intro hc; cases hc)
  | .ok _, .error _ => isFalse (by intro hc; cases hc)
  | .ok x, .ok y =>
    if h : x = y then isTrue (by rw [h]) else isFalse (by intro hc; cases hc; exact h rfl)

/-! ### Part A: data model of the OOXML package assembler -/

/-- A zip member path, as its slash-separated components. -/
abbrev PartPath := List String

/-- An opaque byte buffer (one zip member's content). -/
abbrev Bytes := List Nat

/-- One `<Relationship>` element of a `.rels` file: attributes `Id`, `Type`,
`Target`. -/
structure Rel where
  relId : String
  relType : String
  target : String
deriving DecidableEq, Repr

/-- One `<Override>` element of `[Content_Types].xml`: attributes `PartName`,
`ContentType`. -/
structure CTO where
  partName : String
  contentType : String
deriving DecidableEq, Repr

/-- One entry of the JSON plan's `ppt_pages`: `page.get("template_page_num")`
and `page.get("page_type", "未知版式")`. -/
structure PlanPage where
  templatePageNum : Option Nat
  pageType : Option String
deriving DecidableEq, Repr

/-- The fatal validation errors `build_from_json` raises (each a `ValueError`
in the source), all before the output zip is opened for writing. -/
inductive VErr where
  | emptyPlan : VErr
  | noSlides : VErr
  | missingPageNum (idx : Nat) : VErr
  | badRef (tmplNum : Nat) (idx : Nat) (pageType : String) : VErr
deriving DecidableEq, Repr

/-- The template package: raw zip members plus parsed views of the three XML
parts the assembler rewrites, and the XML parse oracle used on per-slide
relationship files (`ET.fromstring` in `clone_tags`). -/
structure Template where
  files : List (PartPath × Bytes)
  presRels : List Rel
  overrides : List CTO
  relsOf : Bytes → List Rel

/-- `SLIDE_RE.fullmatch(name)`: `ppt/slides/slide(\d+)\.xml`. -/
def slideNum (nm : PartPath) : Option Nat :=
  match nm with
  | ["ppt", "slides", s] => extractNum "slide".data ".xml".data s.data
  | _ => none

/-- The per-slide relationship file pattern
`ppt/slides/_rels/slide(\d+)\.xml\.rels` used to build `slide_rel_map`. -/
def slideRelNum (nm : PartPath) : Option Nat :=
  match nm with
  | ["ppt", "slides", "_rels", s] => extractNum "slide".data ".xml.rels".data s.data
  | _ => none

/-- `TAG_RE.fullmatch(name)`: `ppt/tags/tag(\d+)\.xml`. -/
def tagNum (nm : PartPath) : Option Nat :=
  match nm with
  | ["ppt", "tags", s] => extractNum "tag".data ".xml".data s.data
  | _ => none

/-- `name.startswith("ppt/slides/slide")`. -/
def startsSlidePart (nm : PartPath) : Bool :=
  match nm with
  | "ppt" :: "slides" :: s :: _ => "slide".data.isPrefixOf s.data
  | _ => false

/-- `name.startswith("ppt/slides/_rels/slide")`. -/
def startsSlideRelPart (nm : PartPath) : Bool :=
  match nm with
  | "ppt" :: "slides" :: "_rels" :: s :: _ => "slide".data.isPrefixOf s.data
  | _ => false

/-- `f"ppt/slides/slide{i}.xml"`. -/
def slidePartName (i : Nat) : PartPath :=
  ["ppt", "slides", String.mk ("slide".data ++ decDigits i ++ ".xml".data)]

/-- `f"ppt/slides/_rels/slide{i}.xml.rels"`. -/
def slideRelPartName (i : Nat) : PartPath :=
  ["ppt", "slides", "_rels", String.mk ("slide".data ++ decDigits i ++ ".xml.rels".data)]

/-- `f"ppt/tags/tag{i}.xml"`. -/
def tagPartName (i : Nat) : PartPath :=
  ["ppt", "tags", String.mk ("tag".data ++ decDigits i ++ ".xml".data)]

/-- Association-list lookup by part path (the `file_bytes` dict). -/
def lookupPart (files : List (PartPath × Bytes)) (nm : PartPath) : Option Bytes :=
  (files.find? (fun e => e.1 = nm)).map (fun e => e.2)

/-- Association-list lookup by slide number (the `slide_map` /
`slide_rel_map` dicts). -/
def lookupNum (m : List (Nat × Bytes)) (n : Nat) : Option Bytes :=
  (m.find? (fun e => e.1 = n)).map (fun e => e.2)

/-- `slide_map`: template slide number to slide part bytes. -/
def slideMap (files : List (PartPath × Bytes)) : List (Nat × Bytes) :=
  files.filterMap (fun e => (slideNum e.1).map (fun n => (n, e.2)))

/-- `slide_rel_map`: template slide number to its relationship file bytes. -/
def slideRelMap (files : List (PartPath × Bytes)) : List (Nat × Bytes) :=
  files.filterMap (fun e => (slideRelNum e.1).map (fun n => (n, e.2)))

/-- `max(tag_nums) if tag_nums else 0`: the template's highest tag number. -/
def maxTagNum (files : List (PartPath × Bytes)) : Nat :=
  (files.filterMap (fun e => tagNum e.1)).foldl max 0

/-- `page.get("page_type", "未知版式")`. -/
def pageTypeOf (p : PlanPage) : String := p.pageType.getD "未知版式"

/-- The validation loop of `build_from_json` (source lines 159-167): checks
each entry in order, 1-based, and collects `selected_slides`. -/
def checkPagesFrom (sm : List (Nat × Bytes)) (idx : Nat) :
    List PlanPage → Except VErr (List (Nat × String))
  | [] => .ok []
  | p :: rest =>
    match p.templatePageNum with
    | none => .error (.missingPageNum idx)
    | some tn =>
      if (lookupNum sm tn).isSome then
        match checkPagesFrom sm (idx + 1) rest with
        | .error e => .error e
        | .ok l => .ok ((tn, pageTypeOf p) :: l)
      else .error (.badRef tn idx (pageTypeOf p))

/-- The relationship type URI of a presentation slide. -/
def slideRelTypeStr : String :=
  "http://schemas.openxmlformats.org/officeDocument/2006/relationships/slide"

/-- The relationship type URI of a tags part. -/
def tagsRelTypeStr : String :=
  "http://schemas.openxmlformats.org/officeDocument/2006/relationships/tags"

/-- The slide content type written by `_update_content_types`. -/
def slideCTStr : String :=
  "application/vnd.openxmlformats-officedocument.presentationml.slide+xml"

/-- The tags content type written by `_update_content_types`. -/
def tagsCTStr : String := "application/vnd.ms-powerpoint.tags+xml"

/-- `rid.startswith("rId") and rid[3:].isdigit()`, returning `int(rid[3:])`. -/
def ridNum (s : String) : Option Nat := extractNum "rId".data [] s.data

/-- The `Id` attributes present on a relationships file's elements
(`rel.get("Id")`, dropping falsy values). -/
def existingIds (rels : List Rel) : List String :=
  (rels.map Rel.relId).filter (fun s => s ≠ "")

/-- `_next_rid`: one above the highest numeric `rId`, or 1 when none. -/
def nextRid (ids : List String) : Nat := (ids.filterMap ridNum).foldl max 0 + 1

/-- `f"rId{n}"`. -/
def mkRid (n : Nat) : String := String.mk ("rId".data ++ decDigits n)

/-- `f"slides/slide{i}.xml"`. -/
def slideTargetStr (i : Nat) : String :=
  String.mk ("slides/slide".data ++ decDigits i ++ ".xml".data)

/-- `_update_presentation_rels`: drop the old slide relationships, append `N`
fresh ones numbered from the next free `rId`; returns the new file's elements
and the fresh id list. -/
def updatePresentationRels (rels : List Rel) (slideCount : Nat) :
    List Rel × List String :=
  let start := nextRid (existingIds rels)
  let kept := rels.filter (fun r => ¬ strStarts r.target "slides/slide")
  let newRels := (List.range slideCount).map
    (fun i => Rel.mk (mkRid (start + i)) slideRelTypeStr (slideTargetStr (i + 1)))
  (kept ++ newRels, newRels.map Rel.relId)

/-- `_update_presentation_xml`: the rebuilt `p:sldIdLst`, as
(relationship id, slide id) pairs with ids `256, 257, ...`. -/
def updatePresentationXml (relIds : List String) : List (String × Nat) :=
  relIds.enum.map (fun e => (e.2, 256 + e.1))

/-- `f"/ppt/slides/slide{i}.xml"` (an override's `PartName`). -/
def slideOverridePart (i : Nat) : String :=
  String.mk ("/ppt/slides/slide".data ++ decDigits i ++ ".xml".data)

/-- Flatten a part path back to the string form used in override part names
(`f"/{part_name}"`). -/
def joinSlashData : List String → List Char
  | [] => []
  | [s] => s.data
  | s :: rest => s.data ++ '/' :: joinSlashData rest

/-- Components joined with slashes, as a string. -/
def joinSlash (l : List String) : String := String.mk (joinSlashData l)

/-- `_update_content_types`: remove the old per-slide overrides, append `N`
fresh slide overrides and one override per cloned tag part. -/
def updateContentTypes (ovs : List CTO) (slideCount : Nat)
    (newTagParts : List PartPath) : List CTO :=
  let kept := ovs.filter (fun o => ¬ strStarts o.partName "/ppt/slides/slide")
  let slides := (List.range slideCount).map
    (fun i => CTO.mk (slideOverridePart (i + 1)) slideCTStr)
  let tags := newTagParts.map (fun p => CTO.mk (String.mk ('/' :: joinSlashData p)) tagsCTStr)
  kept ++ slides ++ tags

/-- `posixpath.normpath` on already-split components (relative paths: empty
and `.` segments dropped, `..` pops the previous segment). -/
def normSegs (segs : List String) : List String :=
  segs.foldl
    (fun acc seg =>
      if seg = "" ∨ seg = "." then acc
      else if seg = ".." then
        if acc = [] ∨ acc.getLast? = some ".." then acc ++ [seg] else acc.dropLast
      else acc ++ [seg])
    []

/-- `posixpath.normpath(posixpath.join("ppt/slides", target))`: the canonical
part path a slide-relationship target points at. -/
def canonicalFromSlides (target : String) : PartPath :=
  let tsegs := splitOnChar target '/'
  if strStarts target "/" then normSegs tsegs
  else normSegs ("ppt" :: "slides" :: tsegs)

/-- Length of the common prefix of two component lists. -/
def commonLen : List String → List String → Nat
  | a :: as, b :: bs => if a = b then commonLen as bs + 1 else 0
  | _, _ => 0

/-- `posixpath.relpath(path, start)` on components (both relative, already
normalised — the only use is `relpath(new_part, "ppt/slides")`). -/
def relpathSegs (path start : List String) : List String :=
  let k := commonLen path start
  List.replicate (start.length - k) ".." ++ path.drop k

/-- The directory the per-slide relationship files live under, for
`posixpath.relpath(new_part, "ppt/slides")`. -/
def pptSlidesDir : List String := ["ppt", "slides"]

/-- The mutable state threaded through `clone_tags` calls: `next_tag_num`,
`extra_tag_parts`, `extra_tag_files`. -/
structure TagSt where
  nextTagNum : Nat
  extraTagParts : List PartPath
  extraTagFiles : List (PartPath × Bytes)
deriving DecidableEq, Repr

/-- One relationship element inside `clone_tags`'s loop: a "tags" relationship
whose canonical target exists in the template is repointed to a fresh tag
part. The third component is audit-only (the fresh part, when one was made);
the assembler itself never reads it. -/
def cloneTagsRel (files : List (PartPath × Bytes)) (st : TagSt) (r : Rel) :
    TagSt × Rel × Option PartPath :=
  if r.relType ≠ tagsRelTypeStr then (st, r, none)
  else
    match lookupPart files (canonicalFromSlides r.target) with
    | none => (st, r, none)
    | some b =>
      let k := st.nextTagNum + 1
      let newPart := tagPartName k
      (⟨k, st.extraTagParts ++ [newPart], st.extraTagFiles ++ [(newPart, b)]⟩,
       { r with target := joinSlash (relpathSegs newPart pptSlidesDir) },
       some newPart)

/-- `clone_tags`'s loop over a parsed relationship list. -/
def cloneTagsList (files : List (PartPath × Bytes)) (st : TagSt) :
    List Rel → TagSt × List (Rel × Option PartPath)
  | [] => (st, [])
  | r :: rest =>
    let s1 := cloneTagsRel files st r
    let s2 := cloneTagsList files s1.1 rest
    (s2.1, (s1.2.1, s1.2.2) :: s2.2)

/-- `clone_tags`: empty bytes are returned unchanged (and stay unwritten,
`if not rel_bytes`); otherwise the parsed relationships are processed. -/
def cloneTags (files : List (PartPath × Bytes)) (relsOfFn : Bytes → List Rel)
    (st : TagSt) (b : Bytes) : TagSt × Option (List (Rel × Option PartPath)) :=
  if b = [] then (st, none)
  else
    let s := cloneTagsList files st (relsOfFn b)
    (s.1, some s.2)

/-- The `prepared_rel_bytes` loop (source lines 200-203): clone each selected
slide's relationship file when the template has one. -/
def prepareRels (files : List (PartPath × Bytes)) (relsOfFn : Bytes → List Rel)
    (srm : List (Nat × Bytes)) (st : TagSt) :
    List (Nat × String) → TagSt × List (Option (List (Rel × Option PartPath)))
  | [] => (st, [])
  | sel :: rest =>
    match lookupNum srm sel.1 with
    | none =>
      let s := prepareRels files relsOfFn srm st rest
      (s.1, none :: s.2)
    | some b =>
      let s1 := cloneTags files relsOfFn st b
      let s2 := prepareRels files relsOfFn srm s1.1 rest
      (s2.1, s1.2 :: s2.2)

/-- One output zip member's content: raw copied bytes, or one of the three
rewritten XML parts in structured form. -/
inductive OutData where
  | rawData (b : Bytes) : OutData
  | relsXml (rels : List Rel) : OutData
  | ctXml (ovs : List CTO) : OutData
  | presXml (sldIds : List (String × Nat)) : OutData
deriving DecidableEq, Repr

/-- `[Content_Types].xml` as a part path. -/
def ctPartName : PartPath := ["[Content_Types].xml"]

/-- `ppt/_rels/presentation.xml.rels` as a part path. -/
def presRelsPartName : PartPath := ["ppt", "_rels", "presentation.xml.rels"]

/-- `ppt/presentation.xml` as a part path. -/
def presPartName : PartPath := ["ppt", "presentation.xml"]

/-- One iteration of step 1 of the output loop (source lines 210-228): skip
slide parts and their relationship files, substitute the three rewritten XML
parts, copy everything else. -/
def writeBaseEntry (ct : List CTO) (pr : List Rel) (px : List (String × Nat))
    (e : PartPath × Bytes) : Option (PartPath × OutData) :=
  if startsSlidePart e.1 then none
  else if startsSlideRelPart e.1 then none
  else if e.1 = ctPartName then some (e.1, OutData.ctXml ct)
  else if e.1 = presRelsPartName then some (e.1, OutData.relsXml pr)
  else if e.1 = presPartName then some (e.1, OutData.presXml px)
  else some (e.1, OutData.rawData e.2)

/-- Step 1 of the output loop: copy every non-slide member, substituting the
three rewritten XML parts. -/
def writeBase (files : List (PartPath × Bytes)) (ct : List CTO) (pr : List Rel)
    (px : List (String × Nat)) : List (PartPath × OutData) :=
  files.filterMap (writeBaseEntry ct pr px)

/-- Step 2 of the output loop (source lines 231-237): write the selected
slides, renumbered from `idx`, each with its prepared relationship file when
that is non-empty. -/
def writeSlidesFrom (sm : List (Nat × Bytes)) (idx : Nat) :
    List ((Nat × String) × Option (List (Rel × Option PartPath))) →
      List (PartPath × OutData)
  | [] => []
  | e :: rest =>
    (slidePartName idx, OutData.rawData ((lookupNum sm e.1.1).getD [])) ::
      (match e.2 with
       | some rels => [(slideRelPartName idx, OutData.relsXml (rels.map (fun x => x.1)))]
       | none => []) ++ writeSlidesFrom sm (idx + 1) rest

/-- The initial `clone_tags` state of a run (source lines 148-155). -/
def initTagSt (t : Template) : TagSt := ⟨maxTagNum t.files, [], []⟩

/-- `build_from_json`: validate the plan, rewrite the three XML parts, clone
tag parts, and emit the output members in write order. `.error` corresponds to
a `ValueError` raised before the output zip is opened. -/
def buildFromJson (t : Template) (pages : List PlanPage) :
    Except VErr (List (PartPath × OutData)) :=
  if pages = [] then .error .emptyPlan
  else
    let sm := slideMap t.files
    if sm = [] then .error .noSlides
    else
      match checkPagesFrom sm 1 pages with
      | .error e => .error e
      | .ok selected =>
        let upd := updatePresentationRels t.presRels selected.length
        let px := updatePresentationXml upd.2
        let prep := prepareRels t.files t.relsOf (slideRelMap t.files) (initTagSt t) selected
        let ct := updateContentTypes t.overrides selected.length prep.1.extraTagParts
        .ok (writeBase t.files ct upd.1 px ++
          writeSlidesFrom sm 1 (selected.zip prep.2) ++
          prep.1.extraTagFiles.map (fun e => (e.1, OutData.rawData e.2)))

/-- The ghost audit of a prepared run: each cloned "tags" relationship paired
with the fresh tag part it was repointed to, in processing order. -/
def clonedPairsOf (prepared : List (Option (List (Rel × Option PartPath)))) :
    List (Rel × PartPath) :=
  prepared.foldr
    (fun o acc =>
      match o with
      | none => acc
      | some l => l.filterMap (fun x => x.2.map (fun p => (x.1, p))) ++ acc)
    []

/-! ### Part B: data model of the binder (`generatePPT.py`) -/

/-- The constant tables of `generatePPT.py` (source lines 19-35). -/
def SUFFIXES : List String := ["区", "框", "栏"]

/-- `PLACEHOLDER_KEYWORDS`. -/
def PLACEHOLDER_KEYWORDS : List String := ["文字内容", "字幕", "标题名称", "内容内容"]

/-- `IGNORE_KEYWORDS`: decorative segments dropped from shape paths. -/
def IGNORE_KEYWORDS : List String := ["背景", "矩形", "圆角", "椭圆", "形状", "图形", "遮罩", "底色"]

/-- `EXPANDABLE_KEYWORDS`: shapes the layout adjuster may grow. -/
def EXPANDABLE_KEYWORDS : List String := ["标题", "名称", "课题", "栏目"]

/-- `MANUAL_NAME_MAP`: the legacy-name override table. -/
def MANUAL_NAME_MAP : List (String × List String) :=
  [("目录内容区1", ["文本框 9"]),
   ("目录内容区2", ["文本框 14"]),
   ("目录内容区3", ["文本框 17"]),
   ("目录内容区4", ["文本框 20"]),
   ("字幕", ["文本框 10", "文本框 32", "文本框 36", "文本框 58", "文本框 121"])]

/-- `EMU_PER_PT`. -/
def EMU_PER_PT : ℚ := 12700

/-- `H_PADDING` (EMU). -/
def H_PADDING : Int := 20000

/-- `sub` occurs contiguously inside `l`. -/
def listSub (sub l : List Char) : Bool :=
  (List.range (l.length + 1)).any (fun i => sub.isPrefixOf (l.drop i))

/-- Python `sub in s` (substring containment). -/
def strContains (s sub : String) : Bool := listSub sub.data s.data

/-- Python `s.endswith(suf)`. -/
def strEnds (s suf : String) : Bool := suf.data.isSuffixOf s.data

/-- Python `s[:-len(suf)]`. -/
def dropSuffixStr (s suf : String) : String :=
  String.mk (s.data.take (s.data.length - suf.data.length))

/-- Python `s.replace(" ", "")`. -/
def noSpaces (s : String) : String := String.mk (s.data.filter (fun c => c ≠ ' '))

/-- One text run: its text and its explicit font size in points, if any
(`run.font.size`). Sizes are exact rationals; the EMU rounding python-pptx's
`Pt`/`Length` wrappers apply on storage is abstracted away. -/
structure RunT where
  text : String
  size : Option ℚ
deriving DecidableEq, Repr

/-- A text frame: paragraphs, each a list of runs (python-pptx's
`text_frame.paragraphs[i].runs`; a paragraph's text is the concatenation of
its runs' text). -/
abbrev TextFrame := List (List RunT)

/-- `shape.shape_type`, reduced to the three cases the binder distinguishes. -/
inductive SKind where
  | picture : SKind
  | group : SKind
  | other : SKind
deriving DecidableEq, Repr

/-- One shape's observable fields. `sid` models Python object identity and is
never read by the embedded code; `phType` is `placeholder_format.type`, with
`none` modelling the `ValueError` the probe can raise. Geometry is EMU
(`Int`, as python-pptx stores it). -/
structure ShapeD where
  sid : Nat
  name : String
  kind : SKind
  isPlaceholder : Bool
  phType : Option Nat
  tf : Option TextFrame
  left : Int
  top : Int
  width : Int
  height : Int
deriving DecidableEq, Repr

/-- A default shape value for list indexing (never observed on the embedded
code paths, which index within bounds). -/
def defaultShape : ShapeD :=
  ⟨0, "", SKind.other, false, none, none, 0, 0, 0, 0⟩

instance : Inhabited ShapeD := ⟨defaultShape⟩

mutual
/-- A shape tree node: the slide's strict ownership tree (groups own their
children). -/
inductive ShapeT where
  | node (d : ShapeD) (children : ShapeForest) : ShapeT

/-- A list of sibling shapes, as a mutual inductive so traversals are
structural and kernel-evaluable. -/
inductive ShapeForest where
  | nil : ShapeForest
  | consF (s : ShapeT) (rest : ShapeForest) : ShapeForest
end

/-- Build a forest from a list of trees (used to write concrete slides). -/
def forestOf : List ShapeT → ShapeForest
  | [] => ShapeForest.nil
  | s :: rest => ShapeForest.consF s (forestOf rest)

mutual
/-- `_iter_shapes`: leaves in document order, descending into groups (group
nodes themselves are not yielded). -/
def iterShape : ShapeT → List ShapeD
  | ShapeT.node d ch => if d.kind = SKind.group then iterForest ch else [d]

/-- `_iter_shapes` over a sibling list. -/
def iterForest : ShapeForest → List ShapeD
  | ShapeForest.nil => []
  | ShapeForest.consF s rest => iterShape s ++ iterForest rest
end

/-- The synthetic label an unnamed shape gets: `f"元素{idx}"`. -/
def synthName (idx : Nat) : String := String.mk ("元素".data ++ decDigits idx)

mutual
/-- `_iter_shapes_with_path` on one shape: yield (shape, path), then recurse
into groups; `idx` is the 1-based position among its siblings. -/
def iterPathsShape (pfx : List String) (idx : Nat) : ShapeT → List (ShapeD × List String)
  | ShapeT.node d ch =>
    let nm := if pyStrip d.name = "" then synthName idx else pyStrip d.name
    let path := pfx ++ [nm]
    (d, path) :: (if d.kind = SKind.group then iterPathsForest path 1 ch else [])

/-- `_iter_shapes_with_path` over a sibling list. -/
def iterPathsForest (pfx : List String) (idx : Nat) : ShapeForest → List (ShapeD × List String)
  | ShapeForest.nil => []
  | ShapeForest.consF s rest => iterPathsShape pfx idx s ++ iterPathsForest pfx (idx + 1) rest
end

/-- `_is_picture_shape`. -/
def isPictureShape (d : ShapeD) : Bool :=
  strContains d.name "图片区" ∨ strStarts d.name "图片" ∨ d.kind = SKind.picture ∨
    (d.isPlaceholder ∧ d.phType = some 18)

/-- The full text of a text frame: paragraph texts joined by newlines
(python-pptx `text_frame.text`). -/
def paraTextData (runs : List RunT) : List Char := (runs.map (fun r => r.text.data)).flatten

/-- Text-frame text as character data. -/
def tfTextData : TextFrame → List Char
  | [] => []
  | [p] => paraTextData p
  | p :: rest => paraTextData p ++ '\n' :: tfTextData rest

/-- `text_frame.text` as a string. -/
def tfText (tf : TextFrame) : String := String.mk (tfTextData tf)

/-- `_is_placeholder_shape`. -/
def isPlaceholderShape (d : ShapeD) : Bool :=
  match d.tf with
  | none => false
  | some tf =>
    if strStarts d.name "文本框" then true
    else PLACEHOLDER_KEYWORDS.any (fun kw => strContains (pyStrip (tfText tf)) kw)

/-- `_extract_prefix`: the token before the first underscore, kept only when
the token itself contains the page marker. -/
def extractPrefix (name : String) : Option String :=
  if name.data.contains '_' then
    let tok := String.mk (name.data.takeWhile (fun c => c ≠ '_'))
    if tok.data.contains '页' then some tok else none
  else none

/-- All page-type tokens of a slide, in traversal order with multiplicity
(the segments `_detect_prefix` feeds its counter). -/
def prefixTokens (slide : ShapeForest) : List String :=
  (((iterPathsForest [] 1 slide).map Prod.snd).flatten).filterMap extractPrefix

/-- One counter update: a Python `dict` bump preserving insertion order. -/
def bump : List (String × Nat) → String → List (String × Nat)
  | [], k => [(k, 1)]
  | (a, n) :: t, k => if a = k then (a, n + 1) :: t else (a, n) :: bump t k

/-- The insertion-ordered counter `_detect_prefix` builds. -/
def counterOf (toks : List String) : List (String × Nat) := toks.foldl bump []

/-- Python `max(items, key=lambda item: item[1])`: the first entry with the
maximal second component. -/
def pyMaxBySnd : List (String × Nat) → Option (String × Nat)
  | [] => none
  | x :: xs => some (xs.foldl (fun b y => if y.2 > b.2 then y else b) x)

/-- `_detect_prefix`. -/
def detectPrefix (slide : ShapeForest) : Option String :=
  (pyMaxBySnd (counterOf (prefixTokens slide))).map Prod.fst

/-- `_clean_segment`. -/
def cleanSegment (segment : String) (pagePfx : Option String) : String :=
  let seg := pyStrip segment
  if seg = "" then ""
  else
    let seg :=
      match pagePfx with
      | some p =>
        if strStarts seg (String.mk (p.data ++ ['_'])) then
          String.mk (seg.data.drop (p.data.length + 1))
        else seg
      | none => seg
    if IGNORE_KEYWORDS.any (fun kw => strContains seg kw) then "" else seg

/-- `_normalize_path`. -/
def normalizePath (path : List String) (pagePfx : Option String) : List String :=
  let start :=
    match pagePfx with
    | none => some 0
    | some p => path.findIdx? (fun seg => strContains seg p)
  match start with
  | none => []
  | some i => ((path.drop i).map (fun seg => cleanSegment seg pagePfx)).filter (fun s => s ≠ "")

mutual
/-- A content-tree value: a leaf string or a nested mapping (JSON object).
Non-dict leaves are carried as strings, a falsy value being `""`. -/
inductive Content where
  | leaf (v : String) : Content
  | nodeC (entries : CEntries) : Content

/-- Insertion-ordered entries of one content mapping. -/
inductive CEntries where
  | nilE : CEntries
  | consE (key : String) (val : Content) (rest : CEntries) : CEntries
end

mutual
/-- `_flatten_content`'s walk on one value. -/
def flattenC (path : List String) : Content → List (List String × String)
  | Content.leaf v => [(path, v)]
  | Content.nodeC es => flattenEs path es

/-- `_flatten_content`'s walk on a mapping's entries. -/
def flattenEs (path : List String) : CEntries → List (List String × String)
  | CEntries.nilE => []
  | CEntries.consE k v rest => flattenC (path ++ [k]) v ++ flattenEs path rest
end

/-- The top-level scalar (non-dict) keys of a content mapping, in order: the
keys the fallback loop acts on. -/
def scalarKeys : CEntries → List (String × String)
  | CEntries.nilE => []
  | CEntries.consE k v rest =>
    match v with
    | Content.leaf s => (k, s) :: scalarKeys rest
    | Content.nodeC _ => scalarKeys rest

/-- All leaf values of a content mapping. -/
def leafVals (es : CEntries) : List String := (flattenEs [] es).map (fun e => e.2)

/-- Insert into an ordered alias set (Python `set.add`; only membership is
ever observed). -/
def insertAlias (l : List String) (a : String) : List String :=
  if a ∈ l then l else l ++ [a]

/-- Aliases derived from splitting on one separator (`_add_parts`). -/
def addParts (clean : String) (sep : Char) (acc : List String) : List String :=
  ((splitOnChar clean sep).filter (fun p => p ≠ "")).foldl
    (fun ac p => insertAlias (insertAlias ac p) (noSpaces p)) acc

/-- `_shape_aliases`. -/
def shapeAliases (name : String) : List String :=
  let clean := pyStrip name
  if clean = "" then []
  else
    let base := insertAlias (insertAlias [] clean) (noSpaces clean)
    let base := addParts clean '_' base
    let base := addParts clean '-' base
    base.foldl
      (fun ac al =>
        SUFFIXES.foldl
          (fun ac2 suf =>
            if strEnds al suf then
              let trimmed := dropSuffixStr al suf
              insertAlias (insertAlias ac2 trimmed) (noSpaces trimmed)
            else ac2)
          ac)
      base

/-- `_candidate_keys`. -/
def candidateKeys (key : String) : List String :=
  let key := pyStrip key
  let variants :=
    [key, noSpaces key] ++
      SUFFIXES.foldl
        (fun acc suf =>
          if strEnds key suf then
            acc ++ [dropSuffixStr key suf, noSpaces (dropSuffixStr key suf)]
          else acc)
        []
  variants.foldl (fun acc v => if v ≠ "" ∧ v ∉ acc then acc ++ [v] else acc) []

/-- An observable effect of the binding passes (shape mutations and the
warnings `_fill_slide` prints). -/
inductive Ev where
  | setText (sid : Nat) (v : String) : Ev
  | clearText (sid : Nat) : Ev
  | removeShape (sid : Nat) : Ev
  | addPicture (sid : Nat) (path : String) (left top width height : Int) : Ev
  | warnImage (path : String) : Ev
  | warnNoShape (key : String) : Ev
  | warnNotBindable (key : String) : Ev
deriving DecidableEq, Repr

/-- A Python exception escaping the binder (aborting the run). -/
inductive PyErr where
  | imageOpenFailed (path : String) : PyErr
  | zeroDivision : PyErr
deriving DecidableEq, Repr

/-- Python `int()` on an exact rational: truncation toward zero. -/
def pyInt (q : ℚ) : Int := if q < 0 then Rat.ceil q else Rat.floor q

/-- `_replace_picture`: an empty value removes the placeholder silently; a
path that is not a file prints a warning and removes it; otherwise the
placeholder is replaced by an aspect-fit centered picture. `fs` is
`Path.is_file`, `imgSize` is `PIL.Image.open` (returning pixel dimensions, or
failing). -/
def replacePicture (d : ShapeD) (imagePath : String) (fs : String → Bool)
    (imgSize : String → Option (Nat × Nat)) : Except PyErr (List Ev) :=
  if imagePath = "" then .ok [Ev.removeShape d.sid]
  else if ¬ fs imagePath then .ok [Ev.warnImage imagePath, Ev.removeShape d.sid]
  else
    match imgSize imagePath with
    | none => .error (PyErr.imageOpenFailed imagePath)
    | some wh =>
      if wh.2 = 0 ∨ d.height = 0 then .error PyErr.zeroDivision
      else
        let imgRatio : ℚ := qDiv (wh.1 : ℚ) (wh.2 : ℚ)
        let boxRatio : ℚ := qDiv (d.width : ℚ) (d.height : ℚ)
        let nw : ℚ := if imgRatio > boxRatio then (d.width : ℚ) else qMul (d.height : ℚ) imgRatio
        let nh : ℚ := if imgRatio > boxRatio then qDiv (d.width : ℚ) imgRatio else (d.height : ℚ)
        let newLeft := pyInt (qAdd (d.left : ℚ) (qDiv (qSub (d.width : ℚ) nw) 2))
        let newTop := pyInt (qAdd (d.top : ℚ) (qDiv (qSub (d.height : ℚ) nh) 2))
        .ok [Ev.removeShape d.sid,
          Ev.addPicture d.sid imagePath newLeft newTop (pyInt nw) (pyInt nh)]

/-- The lookup tables `_fill_slide` builds before binding (source lines
289-305): alias and exact name maps (first shape wins), and the placeholder
queues in document order. -/
structure SlideMaps where
  byName : List (String × ShapeD)
  byExact : List (String × ShapeD)
  textPh : List ShapeD
  picPh : List ShapeD
deriving Repr

/-- `dict.setdefault`. -/
def setdefaultA (m : List (String × ShapeD)) (k : String) (v : ShapeD) :
    List (String × ShapeD) :=
  if (m.find? (fun e => e.1 = k)).isSome then m else m ++ [(k, v)]

/-- Build the lookup tables from the flattened shape list. -/
def buildMaps (shapes : List ShapeD) : SlideMaps :=
  shapes.foldl
    (fun m sh =>
      if sh.name = "" then m
      else
        { byExact := setdefaultA m.byExact sh.name sh
          byName := (shapeAliases sh.name).foldl (fun bn a => setdefaultA bn a sh) m.byName
          textPh := if isPlaceholderShape sh then m.textPh ++ [sh] else m.textPh
          picPh := if isPictureShape sh then m.picPh ++ [sh] else m.picPh })
    ⟨[], [], [], []⟩

/-- Lookup in a name map. -/
def lookupName (m : List (String × ShapeD)) (k : String) : Option ShapeD :=
  (m.find? (fun e => e.1 = k)).map (fun e => e.2)

/-- Lookup in the flattened content map. -/
def lookupCM (cm : List (List String × String)) (k : List String) : Option String :=
  (cm.find? (fun e => e.1 = k)).map (fun e => e.2)

/-- The audit and effects of `_fill_slide`'s two binding passes. The
`structural*` fields record what the structural pass consumed, the
`fallback*`/`*Popped` fields what the fallback pass did; the assembler's
behaviour never reads them. -/
structure FillOut where
  events : List Ev
  structuralKeys : List (List String)
  structuralSids : List Nat
  fallbackKeys : List String
  textPopped : List Nat
  picPopped : List Nat
deriving DecidableEq, Repr

/-- The structural pass (source lines 307-327): bind each shape whose
normalized path hits the flattened content map. -/
def structuralPass (cm : List (List String × String)) (fs : String → Bool)
    (imgSize : String → Option (Nat × Nat)) :
    List (ShapeD × List String) → Option String →
      Except PyErr (List Ev × List (List String) × List Nat)
  | [], _ => .ok ([], [], [])
  | (d, rawPath) :: rest, pfx => do
    let tail ← structuralPass cm fs imgSize rest pfx
    let label := normalizePath rawPath pfx
    if label = [] then .ok tail
    else
      match lookupCM cm label with
      | none => .ok tail
      | some v =>
        if isPictureShape d then do
          let evs ← replacePicture d v fs imgSize
          .ok (evs ++ tail.1, label :: tail.2.1, d.sid :: tail.2.2)
        else if d.tf.isSome then
          if v ≠ "" then .ok (Ev.setText d.sid v :: tail.1, label :: tail.2.1, d.sid :: tail.2.2)
          else .ok (Ev.clearText d.sid :: tail.1, label :: tail.2.1, d.sid :: tail.2.2)
        else .ok tail

/-- `MANUAL_NAME_MAP` lookup. -/
def lookupManual (k : String) : Option (List String) :=
  (MANUAL_NAME_MAP.find? (fun e => e.1 = k)).map (fun e => e.2)

/-- The shape-resolution chain of the fallback pass for one key (source lines
333-354): alias candidates, the manual table, the subtitle table, then the
placeholder queues. Returns the chosen shape, the updated queues, and the
popped sids. -/
def fallbackFind (maps : SlideMaps) (areaName : String)
    (textPh picPh : List ShapeD) :
    Option ShapeD × List ShapeD × List ShapeD × List Nat × List Nat :=
  let s1 := (candidateKeys areaName).foldl
    (fun acc c => match acc with | some _ => acc | none => lookupName maps.byName c) none
  let s2 :=
    match s1 with
    | some _ => s1
    | none =>
      match lookupManual areaName with
      | none => none
      | some exacts =>
        exacts.foldl (fun acc c => match acc with | some _ => acc | none => lookupName maps.byExact c) none
  let s3 :=
    match s2 with
    | some _ => s2
    | none =>
      if strContains areaName "字幕" then
        ((lookupManual "字幕").getD []).foldl
          (fun acc c => match acc with | some _ => acc | none => lookupName maps.byExact c) none
      else none
  match s3 with
  | some sh => (some sh, textPh, picPh, [], [])
  | none =>
    if strContains areaName "内容" ∨ strContains areaName "字幕" then
      match textPh with
      | sh :: restPh => (some sh, restPh, picPh, [sh.sid], [])
      | [] =>
        if strContains areaName "图片区" ∨ strContains areaName "图片" then
          match picPh with
          | sh :: restPh => (some sh, textPh, restPh, [], [sh.sid])
          | [] => (none, textPh, picPh, [], [])
        else (none, textPh, picPh, [], [])
    else
      if strContains areaName "图片区" ∨ strContains areaName "图片" then
        match picPh with
        | sh :: restPh => (some sh, textPh, restPh, [], [sh.sid])
        | [] => (none, textPh, picPh, [], [])
      else (none, textPh, picPh, [], [])

/-- The fallback pass (source lines 330-368) over the top-level scalar keys. -/
def fallbackPass (maps : SlideMaps) (fs : String → Bool)
    (imgSize : String → Option (Nat × Nat)) :
    List (String × String) → List ShapeD → List ShapeD →
      Except PyErr (List Ev × List String × List Nat × List Nat)
  | [], _, _ => .ok ([], [], [], [])
  | (k, v) :: rest, textPh, picPh => do
    let r := fallbackFind maps k textPh picPh
    match r.1 with
    | none => do
      let tail ← fallbackPass maps fs imgSize rest r.2.1 r.2.2.1
      .ok (Ev.warnNoShape k :: tail.1, k :: tail.2.1,
        r.2.2.2.1 ++ tail.2.2.1, r.2.2.2.2 ++ tail.2.2.2)
    | some sh => do
      let evs ←
        if isPictureShape sh then replacePicture sh v fs imgSize
        else if sh.tf.isSome then
          if v ≠ "" then pure [Ev.setText sh.sid v] else pure [Ev.clearText sh.sid]
        else pure [Ev.warnNotBindable k]
      let tail ← fallbackPass maps fs imgSize rest r.2.1 r.2.2.1
      .ok (evs ++ tail.1, k :: tail.2.1,
        r.2.2.2.1 ++ tail.2.2.1, r.2.2.2.2 ++ tail.2.2.2)

/-- The binding portion of `_fill_slide`: prefix detection, content
flattening, the structural pass, then the fallback pass. (The subsequent
subtitle-clearing and layout passes act on text/geometry only and are
modelled separately by `applyLayoutRules`.) -/
def fillSlide (slide : ShapeForest) (pageContent : CEntries) (fs : String → Bool)
    (imgSize : String → Option (Nat × Nat)) : Except PyErr FillOut := do
  let pfx := detectPrefix slide
  let cm := flattenEs [] pageContent
  let maps := buildMaps (iterForest slide)
  let s ← structuralPass cm fs imgSize (iterPathsForest [] 1 slide) pfx
  let f ← fallbackPass maps fs imgSize (scalarKeys pageContent) maps.textPh maps.picPh
  .ok ⟨s.1 ++ f.1, s.2.1, s.2.2, f.2.1, f.2.2.1, f.2.2.2⟩

/-! ### Part B: the layout adjuster -/

/-- Per-character width weight (`0.55 if ord(ch) < 128 else 1`). -/
def charWeight (c : Char) : ℚ := if c.toNat < 128 then Rat.divInt 11 20 else 1

/-- The joined run text of a paragraph (`"".join(run.text ...) or para.text
or ""`; a python-pptx paragraph's `text` is that same concatenation). -/
def paraLine (runs : List RunT) : List Char := (runs.map (fun r => r.text.data)).flatten

/-- The first explicit run font size of a paragraph, else the 28pt default. -/
def paraFontSize (runs : List RunT) : ℚ :=
  (((runs.find? (fun r => r.size.isSome)).bind (fun r => r.size)).getD 28)

/-- `_estimate_text_width`: per-character weighted width at the paragraph's
font size, floored at the shape's current width. -/
def estimateTextWidth (d : ShapeD) : ℚ :=
  match d.tf with
  | none => 0
  | some tf =>
    let maxLine := tf.foldl
      (fun acc para =>
        let line := paraLine para
        if line = [] then acc
        else
          max acc (qMul (qMul ((line.map charWeight).foldl qAdd 0) (paraFontSize para)) EMU_PER_PT))
      0
    max maxLine (d.width : ℚ)

/-- `_find_right_limit`: the nearest left edge right of the shape among
vertically overlapping shapes, clipped to the slide width. Shapes are
compared by list position (`shape is text_shape`). -/
def findRightLimit (shapes : List ShapeD) (tIdx : Nat) (slideWidth : Int) : Int :=
  let t := shapes.getD tIdx defaultShape
  shapes.enum.foldl
    (fun limit e =>
      if e.1 = tIdx then limit
      else
        let o := e.2
        let overlap := min (t.top + t.height) (o.top + o.height) - max t.top o.top
        if overlap ≤ 0 then limit
        else if o.left > t.left then min limit o.left else limit)
    slideWidth

/-- `_find_background_shape`: the widest non-text, non-picture shape with at
least 60% vertical overlap; the first such shape wins ties. Returns its list
index. -/
def findBackgroundIdx (shapes : List ShapeD) (tIdx : Nat) : Option Nat :=
  let t := shapes.getD tIdx defaultShape
  shapes.enum.foldl
    (fun cand e =>
      if e.1 = tIdx then cand
      else
        let o := e.2
        if o.tf.isSome ∨ isPictureShape o then cand
        else
          let overlap := min (t.top + t.height) (o.top + o.height) - max t.top o.top
          if overlap ≤ 0 then cand
          else if qDiv (overlap : ℚ) ((max 1 t.height : Int) : ℚ) < Rat.divInt 3 5 then cand
          else
            match cand with
            | none => some e.1
            | some ci =>
              if o.width > (shapes.getD ci defaultShape).width then some e.1 else cand)
    none

/-- `_shrink_font` on a text frame: every explicitly sized run is scaled by
`max ratio 0.6`. -/
def shrinkFontTF (tf : TextFrame) (ratio : ℚ) : TextFrame :=
  let r := max ratio (Rat.divInt 3 5)
  tf.map (fun para =>
    para.map (fun run =>
      match run.size with
      | some s => { run with size := some (qMul s r) }
      | none => run))

/-- `_adjust_text_shape` acting at index `tIdx` of the live shape list. -/
def adjustTextShape (shapes : List ShapeD) (tIdx : Nat) (slideWidth : Int) :
    List ShapeD :=
  let t := shapes.getD tIdx defaultShape
  let tw := estimateTextWidth t
  if tw ≤ 0 then shapes
  else
    let limit := findRightLimit shapes tIdx slideWidth - H_PADDING
    let available : ℚ := max (t.width : ℚ) (qSub (limit : ℚ) (t.left : ℚ))
    let target : ℚ := min (max (t.width : ℚ) (qAdd tw (H_PADDING : ℚ))) available
    if target > (t.width : ℚ) then
      let ti := pyInt target
      let shapes1 := shapes.set tIdx { t with width := ti }
      match findBackgroundIdx shapes1 tIdx with
      | none => shapes1
      | some bi =>
        let bg := shapes1.getD bi defaultShape
        shapes1.set bi
          { bg with
            width := pyInt (max (bg.width : ℚ) (qAdd (ti : ℚ) (H_PADDING : ℚ)))
            left := min bg.left t.left }
    else
      let ratio := if tw ≠ 0 then qDiv available tw else 1
      if ratio < 1 then
        shapes.set tIdx { t with tf := t.tf.map (fun tf => shrinkFontTF tf ratio) }
      else shapes

/-- One iteration of `_apply_layout_rules`'s loop: skip shapes without a text
frame or without an expandable keyword in their name. -/
def layoutStep (slideWidth : Int) (shapes : List ShapeD) (k : Nat) : List ShapeD :=
  let sh := shapes.getD k defaultShape
  if sh.tf.isNone then shapes
  else if ¬ EXPANDABLE_KEYWORDS.any (fun kw => strContains sh.name kw) then shapes
  else adjustTextShape shapes k slideWidth

/-- `_apply_layout_rules` over the flattened shape list (mutations are seen
by later iterations, as in the source). -/
def applyLayoutRules (shapes : List ShapeD) (slideWidth : Int) : List ShapeD :=
  (List.range shapes.length).foldl (layoutStep slideWidth) shapes

/-- The slide parts among output entries: an entry whose name matches
`SLIDE_RE`, keyed by its slide number. -/
def slideEntry (e : PartPath × OutData) : Option (Nat × OutData) :=
  (slideNum e.1).map (fun n => (n, e.2))

/-- The output entries at one exact part path. -/
def partAt (nm : PartPath) (e : PartPath × OutData) : Option OutData :=
  if e.1 = nm then some e.2 else none

/-- The per-slide relationship files among output entries, keyed by slide
number, with their structured relationship lists. -/
def slideRelEntry (e : PartPath × OutData) : Option (Nat × List Rel) :=
  match e.2 with
  | OutData.relsXml rl => (slideRelNum e.1).map (fun n => (n, rl))
  | _ => none

/-! ### Concrete inputs used by witnesses and counterexamples -/

/-- A small template package: two slides, one per-slide relationship file
with a "tags" relationship, one tag part, a theme. -/
def sampleT : Template where
  files :=
    [(ctPartName, [1]),
     (presRelsPartName, [2]),
     (presPartName, [3]),
     (["ppt", "slides", "slide1.xml"], [10]),
     (["ppt", "slides", "slide2.xml"], [20]),
     (["ppt", "slides", "_rels", "slide1.xml.rels"], [11]),
     (["ppt", "tags", "tag3.xml"], [30]),
     (["ppt", "theme", "theme1.xml"], [40])]
  presRels :=
    [⟨"rId1", "http://x/theme", "theme/theme1.xml"⟩,
     ⟨"rId2", slideRelTypeStr, "slides/slide1.xml"⟩,
     ⟨"rId7", slideRelTypeStr, "slides/slide2.xml"⟩]
  overrides :=
    [⟨"/ppt/slides/slide1.xml", slideCTStr⟩,
     ⟨"/ppt/theme/theme1.xml", "t"⟩]
  relsOf := fun b =>
    if b = [11] then
      [⟨"rId1", tagsRelTypeStr, "../tags/tag3.xml"⟩,
       ⟨"rId2", "http://x/image", "../media/image1.png"⟩]
    else []

/-- A three-entry plan reusing template slide 1 twice. -/
def samplePages : List PlanPage :=
  [⟨some 2, some "cover"⟩, ⟨some 1, some "body"⟩, ⟨some 1, none⟩]

/-- The archive `buildFromJson` produces for the sample inputs. -/
def sampleOut : List (PartPath × OutData) :=
  ((buildFromJson sampleT samplePages).toOption).getD []

/-- A leaf shape used by the prefix-detection counterexample. -/
def c6shape (nm : String) : ShapeT :=
  ShapeT.node ⟨1, nm, SKind.other, false, none, none, 0, 0, 0, 0⟩ ShapeForest.nil

/-- Counterexample slide for C6: segment "a_页x" contains the marker only
after the underscore; "图页" and "长长页" are tokens of equal frequency, the
longer one appearing later in traversal order. -/
def c6slide : ShapeForest := forestOf [c6shape "a_页x", c6shape "图页_m", c6shape "长长页_n"]

/-- Counterexample shape for C8: a placeholder text box whose name is also a
structural content key. -/
def c8shapeA : ShapeD :=
  ⟨1, "文本框 1", SKind.other, false, none, some [[⟨"文字内容", some 18⟩]], 0, 0, 100, 100⟩

/-- The single-shape counterexample slide for C8. -/
def c8slide : ShapeForest := forestOf [ShapeT.node c8shapeA ShapeForest.nil]

/-- Counterexample content for C8: "文本框 1" is consumed structurally and
again by the fallback pass; "其他内容" then pops the already-bound
placeholder. -/
def c8content : CEntries :=
  CEntries.consE "文本框 1" (Content.leaf "X")
    (CEntries.consE "其他内容" (Content.leaf "Y") CEntries.nilE)

/-- Counterexample picture placeholder for C9. -/
def c9shape : ShapeD := ⟨7, "图片区1", SKind.other, false, none, none, 0, 0, 10, 10⟩

/-- Counterexample title shape for C7/C10: six CJK characters at 28pt in a
1,000,000 EMU box (estimated width 2,133,600 EMU). -/
def cT : ShapeD :=
  ⟨1, "标题1", SKind.other, false, none, some [[⟨"六个汉字六字", some 28⟩]], 0, 0, 1000000, 100000⟩

/-- Counterexample neighbour for C7/C10: fully overlapping vertically, left
edge at 1,500,000 EMU, no text frame (so it is also the detected background). -/
def cO : ShapeD := ⟨2, "右", SKind.other, false, none, none, 1500000, 0, 10, 100000⟩

/-- The binder output of the C8 counterexample run. -/
def c8out : FillOut :=
  ((fillSlide c8slide c8content (fun _ => false) (fun _ => none)).toOption).getD
    ⟨[], [], [], [], [], []⟩

/-- Index of the first occurrence of a token (the list's length when absent). -/
def firstIdx : List String → String → Nat
  | [], _ => 0
  | t :: rest, x => if t = x then 0 else firstIdx rest x + 1

/-- The tally a key currently holds in an insertion-ordered counter. -/
def cntOf (m : List (String × Nat)) (k : String) : Nat :=
  ((m.find? (fun e => e.1 = k)).map Prod.snd).getD 0

/-- Geometry comparison across a layout pass: the width may only grow, the
left edge may only move left, top and height are untouched. -/
def geomLE (a b : ShapeD) : Prop :=
  a.width ≤ b.width ∧ b.left ≤ a.left ∧ b.top = a.top ∧ b.height = a.height

/-! ## Theorems

First the arithmetic and string infrastructure, then the per-claim results. -/

theorem parseDigits_append (xs ys : List Char) :
    parseDigits (xs ++ ys) = ys.foldl (fun a c => a * 10 + digitVal c) (parseDigits xs) := by
  simp [parseDigits, List.foldl_append]

theorem digitVal_digitChar (d : Nat) (h : d < 10) : digitVal (Nat.digitChar d) = d := by
  interval_cases d <;> rfl

theorem isDigit_digitChar (d : Nat) (h : d < 10) : (Nat.digitChar d).isDigit = true := by
  interval_cases d <;> rfl

theorem decDigitsGo_parse (fuel : Nat) :
    ∀ n, n < fuel → parseDigits (decDigitsGo fuel n) = n := by
  induction fuel with
  | zero => intro n h; omega
  | succ fuel ih =>
    intro n h
    rw [decDigitsGo]
    by_cases h10 : n < 10
    · rw [if_pos h10]
      simp [parseDigits, digitVal_digitChar n h10]
    · rw [if_neg h10]
      rw [parseDigits_append, ih (n / 10) (by omega)]
      simp [digitVal_digitChar _ (Nat.mod_lt _ (by decide))]
      omega

theorem parseDigits_decDigits (n : Nat) : parseDigits (decDigits n) = n :=
  decDigitsGo_parse (n + 1) n (Nat.lt_succ_self n)

theorem decDigitsGo_digits (fuel : Nat) :
    ∀ n, ∀ c ∈ decDigitsGo fuel n, c.isDigit = true := by
  induction fuel with
  | zero => intro n c hc; simp [decDigitsGo] at hc
  | succ fuel ih =>
    intro n c hc
    rw [decDigitsGo] at hc
    by_cases h10 : n < 10
    · rw [if_pos h10] at hc
      simp at hc
      subst hc
      exact isDigit_digitChar n h10
    · rw [if_neg h10] at hc
      rcases List.mem_append.mp hc with h1 | h1
      · exact ih (n / 10) c h1
      · simp at h1
        subst h1
        exact isDigit_digitChar _ (Nat.mod_lt _ (by decide))

theorem decDigits_digits (n : Nat) : ∀ c ∈ decDigits n, c.isDigit = true :=
  decDigitsGo_digits (n + 1) n

theorem decDigits_ne_nil (n : Nat) : decDigits n ≠ [] := by
  have h : decDigitsGo (n + 1) n =
      if n < 10 then [Nat.digitChar n]
      else decDigitsGo n (n / 10) ++ [Nat.digitChar (n % 10)] := rfl
  rw [decDigits, h]
  split <;> simp

theorem decDigits_inj (m n : Nat) (h : decDigits m = decDigits n) : m = n := by
  have h1 := parseDigits_decDigits m
  rw [h, parseDigits_decDigits] at h1
  omega

theorem takeWhile_all_append (p : Char → Bool) (ds tl : List Char)
    (hds : ∀ c ∈ ds, p c = true)
    (htl : tl = [] ∨ ∃ c rest, tl = c :: rest ∧ p c = false) :
    (ds ++ tl).takeWhile p = ds ∧ (ds ++ tl).drop ds.length = tl := by
  constructor
  · induction ds with
    | nil =>
      rcases htl with h | ⟨c, rest, h1, h2⟩
      · simp [h]
      · rw [h1]; simp [List.takeWhile, h2]
    | cons a l ih =>
      have ha : p a = true := hds a (List.mem_cons_self a l)
      simp only [List.cons_append, List.takeWhile, ha]
      show a :: List.takeWhile p (l ++ tl) = a :: l
      rw [ih (fun c hc => hds c (List.mem_cons_of_mem a hc))]
  · simp

theorem extractNum_canonical (pre suf : List Char) (n : Nat)
    (hsuf : suf = [] ∨ ∃ c rest, suf = c :: rest ∧ c.isDigit = false) :
    extractNum pre suf (pre ++ decDigits n ++ suf) = some n := by
  unfold extractNum
  rw [if_pos (by simp [List.isPrefixOf_iff_prefix])]
  simp only [List.append_assoc, List.drop_left]
  have h := takeWhile_all_append Char.isDigit (decDigits n) suf (decDigits_digits n) hsuf
  rw [h.1, h.2]
  rw [if_neg (by simp [List.isEmpty_iff]; exact decDigits_ne_nil n)]
  rw [if_pos rfl, parseDigits_decDigits]

theorem extractNum_isPrefixOf (pre suf cs : List Char) (n : Nat)
    (h : extractNum pre suf cs = some n) : pre.isPrefixOf cs = true := by
  by_cases hp : pre.isPrefixOf cs
  · exact hp
  · rw [extractNum, if_neg (by simp [hp])] at h
    cases h

theorem foldl_max_le_init (l : List Nat) (a : Nat) : a ≤ l.foldl max a := by
  induction l generalizing a with
  | nil => simp
  | cons x xs ih => exact le_trans (Nat.le_max_left a x) (ih (max a x))

theorem mem_le_foldl_max (l : List Nat) (a : Nat) (x : Nat) (hx : x ∈ l) :
    x ≤ l.foldl max a := by
  induction l generalizing a with
  | nil => cases hx
  | cons y ys ih =>
    rcases List.mem_cons.mp hx with h | h
    · subst h
      exact le_trans (Nat.le_max_right a x) (foldl_max_le_init ys (max a x))
    · exact ih (max a y) h

/-! ### The validation loop -/

theorem checkPagesFrom_ok_spec (sm : List (Nat × Bytes)) :
    ∀ (pages : List PlanPage) (idx : Nat) (selected : List (Nat × String)),
      checkPagesFrom sm idx pages = .ok selected →
      selected.length = pages.length ∧
        ∀ i p, pages.get? i = some p →
          ∃ tn, p.templatePageNum = some tn ∧ (lookupNum sm tn).isSome = true ∧
            selected.get? i = some (tn, pageTypeOf p) := by
  intro pages
  induction pages with
  | nil =>
    intro idx selected h
    rw [checkPagesFrom] at h
    cases h
    refine ⟨rfl, ?_⟩
    intro i p hp
    simp [List.get?] at hp
  | cons p rest ih =>
    intro idx selected h
    rw [checkPagesFrom] at h
    split at h
    · cases h
    · rename_i tn htn
      split at h
      · rename_i hs
        split at h
        · cases h
        · rename_i l hrec
          cases h
          obtain ⟨hlen, hall⟩ := ih (idx + 1) l hrec
          refine ⟨by simp [hlen], ?_⟩
          intro i q hq
          cases i with
          | zero =>
            rw [List.get?_cons_zero] at hq
            cases hq
            exact ⟨tn, htn, hs, by rw [List.get?_cons_zero]⟩
          | succ j =>
            rw [List.get?_cons_succ] at hq
            obtain ⟨tn2, h1, h2, h3⟩ := hall j q hq
            rw [List.get?_cons_succ]
            exact ⟨tn2, h1, h2, h3⟩
      · cases h

theorem checkPagesFrom_err_at (sm : List (Nat × Bytes)) :
    ∀ (pages : List PlanPage) (idx i : Nat) (pg : PlanPage) (tn : Nat),
      (∀ j q, j < i → pages.get? j = some q →
        ∃ m, q.templatePageNum = some m ∧ (lookupNum sm m).isSome = true) →
      pages.get? i = some pg → pg.templatePageNum = some tn →
      lookupNum sm tn = none →
      checkPagesFrom sm idx pages = .error (.badRef tn (idx + i) (pageTypeOf pg)) := by
  intro pages
  induction pages with
  | nil =>
    intro idx i pg tn hpre hi
    simp [List.get?] at hi
  | cons p rest ih =>
    intro idx i pg tn hpre hi htn hnone
    cases i with
    | zero =>
      simp [List.get?] at hi
      subst hi
      simp [checkPagesFrom, htn, hnone]
    | succ j =>
      obtain ⟨m, hm1, hm2⟩ := hpre 0 p (Nat.succ_pos j) (by simp [List.get?])
      have hrec := ih (idx + 1) j pg tn
        (fun k q hk hq => hpre (k + 1) q (by omega) (by simpa [List.get?] using hq))
        (by simpa [List.get?] using hi) htn hnone
      have harith : idx + 1 + j = idx + (j + 1) := by omega
      simp [checkPagesFrom, hm1, hm2, hrec, harith]

/-! ### C2: validation failures abort before any output -/

/-- C2 (claim): assembly fails with a fatal validation error — returned before
any output member is produced — when the plan is empty, when the template has
no slide parts, or at the first plan entry whose referenced template slide
number is absent; in the last case the error carries that entry's 1-based
index. -/
theorem c2_validation_aborts (t : Template) (pages : List PlanPage) :
    (pages = [] → buildFromJson t pages = .error VErr.emptyPlan) ∧
    (pages ≠ [] → slideMap t.files = [] → buildFromJson t pages = .error VErr.noSlides) ∧
    (∀ i pg tn, slideMap t.files ≠ [] →
      (∀ j q, j < i → pages.get? j = some q →
        ∃ m, q.templatePageNum = some m ∧ (lookupNum (slideMap t.files) m).isSome = true) →
      pages.get? i = some pg → pg.templatePageNum = some tn →
      lookupNum (slideMap t.files) tn = none →
      buildFromJson t pages = .error (VErr.badRef tn (i + 1) (pageTypeOf pg))) := by
  refine ⟨?_, ?_, ?_⟩
  · intro h
    rw [buildFromJson, if_pos h]
  · intro hne hsm
    rw [buildFromJson, if_neg hne]
    simp only [hsm]
    rfl
  · intro i pg tn hsm hpre hi htn hnone
    have hne : pages ≠ [] := by
      intro h
      subst h
      simp [List.get?] at hi
    rw [buildFromJson, if_neg hne]
    have herr := checkPagesFrom_err_at (slideMap t.files) pages 1 i pg tn hpre hi htn hnone
    simp only [if_neg hsm, herr]
    have : 1 + i = i + 1 := by omega
    rw [this]

/-- C2 witness: the three failure modes at concrete inputs. -/
theorem c2_validation_aborts_witness :
    buildFromJson sampleT [] = .error VErr.emptyPlan ∧
    buildFromJson { sampleT with files := [(ctPartName, [1])] } samplePages =
      .error VErr.noSlides ∧
    buildFromJson sampleT [⟨some 2, some "cover"⟩, ⟨some 9, some "x"⟩] =
      .error (VErr.badRef 9 2 "x") :=
  ⟨(c2_validation_aborts sampleT []).1 rfl,
   (c2_validation_aborts { sampleT with files := [(ctPartName, [1])] } samplePages).2.1
     (by decide) (by decide),
   (c2_validation_aborts sampleT [⟨some 2, some "cover"⟩, ⟨some 9, some "x"⟩]).2.2
     1 ⟨some 9, some "x"⟩ 9 (by decide)
     (by
       intro j q hj hq
       interval_cases j
       simp [List.get?] at hq
       subst hq
       exact ⟨2, rfl, by decide⟩)
     rfl rfl (by decide)⟩

/-! ### Part names and the write loop -/

theorem slideNum_slidePartName (i : Nat) : slideNum (slidePartName i) = some i := by
  simp [slideNum, slidePartName]
  exact extractNum_canonical "slide".data ".xml".data i (Or.inr ⟨'.', "xml".data, rfl, rfl⟩)

theorem slideNum_slideRelPartName (i : Nat) : slideNum (slideRelPartName i) = none := rfl

theorem slideNum_tagPartName (k : Nat) : slideNum (tagPartName k) = none := rfl

theorem slideRelNum_slideRelPartName (i : Nat) :
    slideRelNum (slideRelPartName i) = some i := by
  simp [slideRelNum, slideRelPartName]
  exact extractNum_canonical "slide".data ".xml.rels".data i (Or.inr ⟨'.', "xml.rels".data, rfl, rfl⟩)

theorem slideRelNum_slidePartName (i : Nat) : slideRelNum (slidePartName i) = none := rfl

theorem slideRelNum_tagPartName (k : Nat) : slideRelNum (tagPartName k) = none := rfl

theorem tagNum_tagPartName (k : Nat) : tagNum (tagPartName k) = some k := by
  simp [tagNum, tagPartName]
  exact extractNum_canonical "tag".data ".xml".data k (Or.inr ⟨'.', "xml".data, rfl, rfl⟩)

theorem startsSlidePart_of_slideNum (nm : PartPath) (n : Nat) (h : slideNum nm = some n) :
    startsSlidePart nm = true := by
  unfold slideNum at h
  split at h
  · unfold startsSlidePart
    exact extractNum_isPrefixOf _ _ _ _ h
  · cases h

theorem startsSlideRelPart_of_slideRelNum (nm : PartPath) (n : Nat)
    (h : slideRelNum nm = some n) : startsSlideRelPart nm = true := by
  unfold slideRelNum at h
  split at h
  · unfold startsSlideRelPart
    exact extractNum_isPrefixOf _ _ _ _ h
  · cases h

theorem mem_writeBase_spec (files : List (PartPath × Bytes)) (ct : List CTO)
    (pr : List Rel) (px : List (String × Nat)) (e : PartPath × OutData)
    (he : e ∈ writeBase files ct pr px) :
    startsSlidePart e.1 = false ∧ startsSlideRelPart e.1 = false ∧
      e.1 ∈ files.map Prod.fst := by
  obtain ⟨a, ha, hfa⟩ := List.mem_filterMap.mp he
  have hmem : a.1 ∈ files.map Prod.fst := List.mem_map.mpr ⟨a, ha, rfl⟩
  unfold writeBaseEntry at hfa
  by_cases h1 : startsSlidePart a.1 = true
  · simp [h1] at hfa
  by_cases h2 : startsSlideRelPart a.1 = true
  · simp [h1, h2] at hfa
  have hb1 : startsSlidePart a.1 = false := by simpa using h1
  have hb2 : startsSlideRelPart a.1 = false := by simpa using h2
  simp only [hb1, hb2, Bool.false_eq_true, if_false] at hfa
  split at hfa
  · cases hfa
    exact ⟨hb1, hb2, hmem⟩
  · split at hfa
    · cases hfa
      exact ⟨hb1, hb2, hmem⟩
    · split at hfa
      · cases hfa
        exact ⟨hb1, hb2, hmem⟩
      · cases hfa
        exact ⟨hb1, hb2, hmem⟩

theorem writeBase_no_slideEntry (files : List (PartPath × Bytes)) (ct : List CTO)
    (pr : List Rel) (px : List (String × Nat)) :
    (writeBase files ct pr px).filterMap slideEntry = [] := by
  rw [List.filterMap_eq_nil]
  intro e he
  obtain ⟨h1, _, _⟩ := mem_writeBase_spec files ct pr px e he
  unfold slideEntry
  cases hsn : slideNum e.1 with
  | none => rfl
  | some n =>
    have := startsSlidePart_of_slideNum e.1 n hsn
    rw [this] at h1
    cases h1

theorem buildFromJson_ok_inv (t : Template) (pages : List PlanPage)
    (out : List (PartPath × OutData)) (hb : buildFromJson t pages = .ok out) :
    ∃ selected,
      checkPagesFrom (slideMap t.files) 1 pages = .ok selected ∧
      out =
        writeBase t.files
            (updateContentTypes t.overrides selected.length
              (prepareRels t.files t.relsOf (slideRelMap t.files) (initTagSt t) selected).1.extraTagParts)
            (updatePresentationRels t.presRels selected.length).1
            (updatePresentationXml (updatePresentationRels t.presRels selected.length).2) ++
          writeSlidesFrom (slideMap t.files) 1
            (selected.zip (prepareRels t.files t.relsOf (slideRelMap t.files) (initTagSt t) selected).2) ++
          (prepareRels t.files t.relsOf (slideRelMap t.files) (initTagSt t) selected).1.extraTagFiles.map
            (fun e => (e.1, OutData.rawData e.2)) := by
  simp only [buildFromJson] at hb
  split at hb
  · cases hb
  · split at hb
    · cases hb
    · split at hb
      · cases hb
      · rename_i selected hsel
        cases hb
        exact ⟨selected, hsel, rfl⟩

theorem writeSlidesFrom_slideEntries (sm : List (Nat × Bytes)) :
    ∀ (l : List ((Nat × String) × Option (List (Rel × Option PartPath)))) (idx : Nat),
      ((writeSlidesFrom sm idx l).filterMap slideEntry).length = l.length ∧
        ∀ k e, l.get? k = some e →
          ((writeSlidesFrom sm idx l).filterMap slideEntry).get? k =
            some (idx + k, OutData.rawData ((lookupNum sm e.1.1).getD [])) := by
  intro l
  induction l with
  | nil =>
    intro idx
    refine ⟨rfl, ?_⟩
    intro k e hk
    simp [List.get?] at hk
  | cons x rest ih =>
    intro idx
    have hsl : ∀ (d : OutData), slideEntry (slidePartName idx, d) = some (idx, d) := by
      intro d
      unfold slideEntry
      rw [slideNum_slidePartName]
      rfl
    have hsr : ∀ (d : OutData), slideEntry (slideRelPartName idx, d) = none := by
      intro d
      unfold slideEntry
      rw [slideNum_slideRelPartName]
      rfl
    have hrw : (writeSlidesFrom sm idx (x :: rest)).filterMap slideEntry =
        (idx, OutData.rawData ((lookupNum sm x.1.1).getD [])) ::
          (writeSlidesFrom sm (idx + 1) rest).filterMap slideEntry := by
      cases hx2 : x.2 with
      | none =>
        rw [writeSlidesFrom, hx2]
        simp [List.filterMap_cons, hsl]
      | some rels =>
        rw [writeSlidesFrom, hx2]
        simp [List.filterMap_cons, List.filterMap_append, hsl, hsr]
    rw [hrw]
    obtain ⟨ihlen, ihget⟩ := ih (idx + 1)
    refine ⟨by simp [ihlen], ?_⟩
    intro k e hk
    cases k with
    | zero =>
      rw [List.get?_cons_zero] at hk
      cases hk
      rw [List.get?_cons_zero]
      simp
    | succ j =>
      rw [List.get?_cons_succ] at hk
      rw [List.get?_cons_succ]
      have := ihget j e hk
      rw [this]
      have harith : idx + 1 + j = idx + (j + 1) := by omega
      rw [harith]

/-! ### The tag-cloning state machine -/

theorem mem_of_getLast?_some (l : List Nat) (x : Nat) (h : l.getLast? = some x) : x ∈ l := by
  have hx : x ∈ l.getLast? := h
  obtain ⟨hne, heq⟩ := List.mem_getLast?_eq_getLast hx
  rw [heq]
  exact List.getLast_mem hne

theorem mem_of_head?_some (l : List Nat) (x : Nat) (h : l.head? = some x) : x ∈ l := by
  cases l with
  | nil => cases h
  | cons a t =>
    rw [List.head?_cons] at h
    cases h
    exact List.mem_cons_self _ _

theorem cloneTagsRel_spec (files : List (PartPath × Bytes)) (st : TagSt) (r : Rel) :
    cloneTagsRel files st r = (st, r, none) ∨
      ∃ b, r.relType = tagsRelTypeStr ∧
        cloneTagsRel files st r =
          (⟨st.nextTagNum + 1, st.extraTagParts ++ [tagPartName (st.nextTagNum + 1)],
             st.extraTagFiles ++ [(tagPartName (st.nextTagNum + 1), b)]⟩,
           { r with target := joinSlash (relpathSegs (tagPartName (st.nextTagNum + 1)) pptSlidesDir) },
           some (tagPartName (st.nextTagNum + 1))) := by
  unfold cloneTagsRel
  split
  · exact Or.inl rfl
  · rename_i hty
    cases hc : lookupPart files (canonicalFromSlides r.target) with
    | none => exact Or.inl rfl
    | some b =>
      refine Or.inr ⟨b, by simpa using hty, rfl⟩

theorem cloneTagsList_spec (files : List (PartPath × Bytes)) :
    ∀ (rels : List Rel) (st : TagSt),
      ∃ ks : List Nat,
        st.nextTagNum ≤ (cloneTagsList files st rels).1.nextTagNum ∧
        List.Chain' (· < ·) ks ∧
        (∀ k ∈ ks, st.nextTagNum < k ∧ k ≤ (cloneTagsList files st rels).1.nextTagNum) ∧
        (cloneTagsList files st rels).1.extraTagParts = st.extraTagParts ++ ks.map tagPartName ∧
        (cloneTagsList files st rels).1.extraTagFiles.map Prod.fst =
          st.extraTagFiles.map Prod.fst ++ ks.map tagPartName ∧
        ((cloneTagsList files st rels).2.filterMap
            (fun x => x.2.map (fun p => (x.1, p)))).map Prod.snd = ks.map tagPartName ∧
        ∀ pr ∈ (cloneTagsList files st rels).2.filterMap
            (fun x => x.2.map (fun p => (x.1, p))),
          pr.1.target = joinSlash (relpathSegs pr.2 pptSlidesDir) ∧
            pr.1.relType = tagsRelTypeStr := by
  intro rels
  induction rels with
  | nil =>
    intro st
    refine ⟨[], le_refl _, List.chain'_nil, ?_, by simp [cloneTagsList], by simp [cloneTagsList], by simp [cloneTagsList], ?_⟩
    · intro k hk; cases hk
    · intro pr hpr; simp [cloneTagsList] at hpr
  | cons r rest ih =>
    intro st
    rcases cloneTagsRel_spec files st r with hcase | ⟨b, hty, hcase⟩
    · obtain ⟨ks, h1, h2, h3, h4, h5, h6, h7⟩ := ih st
      have hred1 : (cloneTagsList files st (r :: rest)).1 = (cloneTagsList files st rest).1 := by
        simp only [cloneTagsList, hcase]
      have hred2 : (cloneTagsList files st (r :: rest)).2 =
          (r, none) :: (cloneTagsList files st rest).2 := by
        simp only [cloneTagsList, hcase]
      rw [hred1, hred2]
      refine ⟨ks, h1, h2, h3, h4, h5, ?_, ?_⟩
      · simpa only [List.filterMap_cons, Option.map_none] using h6
      · intro pr hpr
        simp only [List.filterMap_cons, Option.map_none] at hpr
        exact h7 pr hpr
    · obtain ⟨ks, h1, h2, h3, h4, h5, h6, h7⟩ := ih ⟨st.nextTagNum + 1,
        st.extraTagParts ++ [tagPartName (st.nextTagNum + 1)],
        st.extraTagFiles ++ [(tagPartName (st.nextTagNum + 1), b)]⟩
      have hred1 : (cloneTagsList files st (r :: rest)).1 =
          (cloneTagsList files ⟨st.nextTagNum + 1,
            st.extraTagParts ++ [tagPartName (st.nextTagNum + 1)],
            st.extraTagFiles ++ [(tagPartName (st.nextTagNum + 1), b)]⟩ rest).1 := by
        simp only [cloneTagsList, hcase]
      have hred2 : (cloneTagsList files st (r :: rest)).2 =
          ({ r with target := joinSlash (relpathSegs (tagPartName (st.nextTagNum + 1)) pptSlidesDir) },
              some (tagPartName (st.nextTagNum + 1))) ::
            (cloneTagsList files ⟨st.nextTagNum + 1,
              st.extraTagParts ++ [tagPartName (st.nextTagNum + 1)],
              st.extraTagFiles ++ [(tagPartName (st.nextTagNum + 1), b)]⟩ rest).2 := by
        simp only [cloneTagsList, hcase]
      rw [hred1, hred2]
      simp only at h1 h3 h4 h5
      refine ⟨(st.nextTagNum + 1) :: ks, by omega, ?_, ?_, ?_, ?_, ?_, ?_⟩
      · rw [List.chain'_cons']
        refine ⟨?_, h2⟩
        intro m hm
        have hmem : m ∈ ks := mem_of_head?_some ks m (Option.mem_def.mp hm)
        exact (h3 m hmem).1
      · intro k hk
        rcases List.mem_cons.mp hk with h | h
        · subst h
          exact ⟨by omega, by omega⟩
        · obtain ⟨ha, hb2⟩ := h3 k h
          exact ⟨by omega, hb2⟩
      · rw [h4]
        simp
      · rw [h5]
        simp
      · simp only [List.filterMap_cons, Option.map_some', List.map_cons]
        rw [h6]
      · intro pr hpr
        simp only [List.filterMap_cons, Option.map_some'] at hpr
        rcases List.mem_cons.mp hpr with h | h
        · subst h
          exact ⟨rfl, by simpa using hty⟩
        · exact h7 pr h

theorem cloneTags_spec (files : List (PartPath × Bytes)) (relsOfFn : Bytes → List Rel)
    (st : TagSt) (b : Bytes) :
    ∃ ks : List Nat,
      st.nextTagNum ≤ (cloneTags files relsOfFn st b).1.nextTagNum ∧
      List.Chain' (· < ·) ks ∧
      (∀ k ∈ ks, st.nextTagNum < k ∧ k ≤ (cloneTags files relsOfFn st b).1.nextTagNum) ∧
      (cloneTags files relsOfFn st b).1.extraTagParts = st.extraTagParts ++ ks.map tagPartName ∧
      (cloneTags files relsOfFn st b).1.extraTagFiles.map Prod.fst =
        st.extraTagFiles.map Prod.fst ++ ks.map tagPartName ∧
      (((cloneTags files relsOfFn st b).2.getD []).filterMap
          (fun x => x.2.map (fun p => (x.1, p)))).map Prod.snd = ks.map tagPartName ∧
      ∀ pr ∈ ((cloneTags files relsOfFn st b).2.getD []).filterMap
          (fun x => x.2.map (fun p => (x.1, p))),
        pr.1.target = joinSlash (relpathSegs pr.2 pptSlidesDir) ∧
          pr.1.relType = tagsRelTypeStr := by
  unfold cloneTags
  split
  · refine ⟨[], le_refl _, List.chain'_nil, ?_, by simp, by simp, by simp, ?_⟩
    · intro k hk; cases hk
    · intro pr hpr; simp at hpr
  · exact cloneTagsList_spec files (relsOfFn b) st

theorem prepareRels_spec (files : List (PartPath × Bytes)) (relsOfFn : Bytes → List Rel)
    (srm : List (Nat × Bytes)) :
    ∀ (selected : List (Nat × String)) (st : TagSt),
      ∃ ks : List Nat,
        st.nextTagNum ≤ (prepareRels files relsOfFn srm st selected).1.nextTagNum ∧
        List.Chain' (· < ·) ks ∧
        (∀ k ∈ ks, st.nextTagNum < k ∧
          k ≤ (prepareRels files relsOfFn srm st selected).1.nextTagNum) ∧
        (prepareRels files relsOfFn srm st selected).1.extraTagParts =
          st.extraTagParts ++ ks.map tagPartName ∧
        (prepareRels files relsOfFn srm st selected).1.extraTagFiles.map Prod.fst =
          st.extraTagFiles.map Prod.fst ++ ks.map tagPartName ∧
        (clonedPairsOf (prepareRels files relsOfFn srm st selected).2).map Prod.snd =
          ks.map tagPartName ∧
        ∀ pr ∈ clonedPairsOf (prepareRels files relsOfFn srm st selected).2,
          pr.1.target = joinSlash (relpathSegs pr.2 pptSlidesDir) ∧
            pr.1.relType = tagsRelTypeStr := by
  intro selected
  induction selected with
  | nil =>
    intro st
    refine ⟨[], le_refl _, List.chain'_nil, ?_, by simp [prepareRels], by simp [prepareRels], by simp [prepareRels, clonedPairsOf], ?_⟩
    · intro k hk; cases hk
    · intro pr hpr; simp [prepareRels, clonedPairsOf] at hpr
  | cons sel rest ih =>
    intro st
    cases hl : lookupNum srm sel.1 with
    | none =>
      obtain ⟨ks, h1, h2, h3, h4, h5, h6, h7⟩ := ih st
      have hred1 : (prepareRels files relsOfFn srm st (sel :: rest)).1 =
          (prepareRels files relsOfFn srm st rest).1 := by
        simp only [prepareRels, hl]
      have hred2 : (prepareRels files relsOfFn srm st (sel :: rest)).2 =
          none :: (prepareRels files relsOfFn srm st rest).2 := by
        simp only [prepareRels, hl]
      rw [hred1, hred2]
      refine ⟨ks, h1, h2, h3, h4, h5, ?_, ?_⟩
      · simpa [clonedPairsOf] using h6
      · intro pr hpr
        refine h7 pr ?_
        simpa [clonedPairsOf] using hpr
    | some b =>
      obtain ⟨ks1, g1, g2, g3, g4, g5, g6, g7⟩ := cloneTags_spec files relsOfFn st b
      obtain ⟨ks2, h1, h2, h3, h4, h5, h6, h7⟩ := ih (cloneTags files relsOfFn st b).1
      have hred1 : (prepareRels files relsOfFn srm st (sel :: rest)).1 =
          (prepareRels files relsOfFn srm (cloneTags files relsOfFn st b).1 rest).1 := by
        simp only [prepareRels, hl]
      have hred2 : (prepareRels files relsOfFn srm st (sel :: rest)).2 =
          (cloneTags files relsOfFn st b).2 ::
            (prepareRels files relsOfFn srm (cloneTags files relsOfFn st b).1 rest).2 := by
        simp only [prepareRels, hl]
      rw [hred1, hred2]
      have hpairs : clonedPairsOf ((cloneTags files relsOfFn st b).2 ::
          (prepareRels files relsOfFn srm (cloneTags files relsOfFn st b).1 rest).2) =
          ((cloneTags files relsOfFn st b).2.getD []).filterMap
            (fun x => x.2.map (fun p => (x.1, p))) ++
          clonedPairsOf (prepareRels files relsOfFn srm (cloneTags files relsOfFn st b).1 rest).2 := by
        unfold clonedPairsOf
        cases (cloneTags files relsOfFn st b).2 with
        | none => simp
        | some l => simp
      refine ⟨ks1 ++ ks2, ?_, ?_, ?_, ?_, ?_, ?_, ?_⟩
      · omega
      · rw [List.chain'_append]
        refine ⟨g2, h2, ?_⟩
        intro x hx y hy
        rw [Option.mem_def] at hx hy
        have hx2 := (g3 x (mem_of_getLast?_some ks1 x hx)).2
        have hy2 := (h3 y (mem_of_head?_some ks2 y hy)).1
        omega
      · intro k hk
        rcases List.mem_append.mp hk with h | h
        · obtain ⟨ha, hb2⟩ := g3 k h
          exact ⟨ha, by omega⟩
        · obtain ⟨ha, hb2⟩ := h3 k h
          exact ⟨by omega, hb2⟩
      · rw [h4, g4]
        simp [List.map_append]
      · rw [h5, g5]
        simp [List.map_append]
      · rw [hpairs]
        rw [List.map_append, g6, h6, List.map_append]
      · intro pr hpr
        rw [hpairs] at hpr
        rcases List.mem_append.mp hpr with h | h
        · exact g7 pr h
        · exact h7 pr h

theorem prepareRels_sndLength (files : List (PartPath × Bytes))
    (relsOfFn : Bytes → List Rel) (srm : List (Nat × Bytes)) :
    ∀ (selected : List (Nat × String)) (st : TagSt),
      (prepareRels files relsOfFn srm st selected).2.length = selected.length := by
  intro selected
  induction selected with
  | nil => intro st; rfl
  | cons sel rest ih =>
    intro st
    cases hl : lookupNum srm sel.1 with
    | none => simp only [prepareRels, hl, List.length_cons, ih st]
    | some b => simp only [prepareRels, hl, List.length_cons, ih (cloneTags files relsOfFn st b).1]

theorem get?_zip_left {α β : Type} :
    ∀ (l1 : List α) (l2 : List β) (i : Nat) (x : α),
      l1.get? i = some x → i < l2.length → ∃ y, (l1.zip l2).get? i = some (x, y) := by
  intro l1
  induction l1 with
  | nil =>
    intro l2 i x hx
    simp [List.get?] at hx
  | cons a l ih =>
    intro l2 i x hx hi
    cases l2 with
    | nil => simp at hi
    | cons b l2t =>
      cases i with
      | zero =>
        rw [List.get?_cons_zero] at hx
        cases hx
        exact ⟨b, rfl⟩
      | succ j =>
        rw [List.get?_cons_succ] at hx
        simp only [List.length_cons] at hi
        obtain ⟨y, hy⟩ := ih l2t j x hx (by omega)
        exact ⟨y, by simpa [List.zip_cons_cons] using hy⟩

/-! ### Locating the rewritten XML parts in the output -/

theorem writeBaseEntry_name (ct : List CTO) (pr : List Rel) (px : List (String × Nat))
    (e : PartPath × Bytes) (e' : PartPath × OutData)
    (h : writeBaseEntry ct pr px e = some e') : e'.1 = e.1 := by
  unfold writeBaseEntry at h
  split at h
  · cases h
  · split at h
    · cases h
    · split at h
      · cases h; rfl
      · split at h
        · cases h; rfl
        · split at h
          · cases h; rfl
          · cases h; rfl

theorem writeBase_at_notmem (files : List (PartPath × Bytes)) (ct : List CTO)
    (pr : List Rel) (px : List (String × Nat)) (nm : PartPath)
    (hnm : nm ∉ files.map Prod.fst) :
    (writeBase files ct pr px).filterMap (partAt nm) = [] := by
  rw [List.filterMap_eq_nil]
  intro e he
  obtain ⟨_, _, hmem⟩ := mem_writeBase_spec files ct pr px e he
  unfold partAt
  rw [if_neg (by intro h; rw [h] at hmem; exact hnm hmem)]

theorem writeBase_at_presRels (files : List (PartPath × Bytes)) (ct : List CTO)
    (pr : List Rel) (px : List (String × Nat))
    (hnd : (files.map Prod.fst).Nodup) (hmem : presRelsPartName ∈ files.map Prod.fst) :
    (writeBase files ct pr px).filterMap (partAt presRelsPartName) =
      [OutData.relsXml pr] := by
  induction files with
  | nil => simp at hmem
  | cons f rest ih =>
    have hnd2 := hnd
    rw [List.map_cons, List.nodup_cons] at hnd2
    by_cases hf : f.1 = presRelsPartName
    · have hf2 : f = (presRelsPartName, f.2) := by
        rw [← hf]
      have hrw : writeBaseEntry ct pr px f = some (presRelsPartName, OutData.relsXml pr) := by
        rw [hf2]
        rfl
      have hrest : (writeBase rest ct pr px).filterMap (partAt presRelsPartName) = [] :=
        writeBase_at_notmem rest ct pr px presRelsPartName (by rw [← hf]; exact hnd2.1)
      have hp : partAt presRelsPartName (presRelsPartName, OutData.relsXml pr) =
          some (OutData.relsXml pr) := by
        unfold partAt
        rw [if_pos rfl]
      unfold writeBase at hrest ⊢
      simp only [List.filterMap_cons, hrw, hp]
      rw [hrest]
    · have hmem2 : presRelsPartName ∈ rest.map Prod.fst := by
        rw [List.map_cons] at hmem
        rcases List.mem_cons.mp hmem with h | h
        · exact absurd h.symm hf
        · exact h
      have ihr := ih hnd2.2 hmem2
      unfold writeBase at ihr ⊢
      rw [List.filterMap_cons]
      cases hwe : writeBaseEntry ct pr px f with
      | none => exact ihr
      | some e' =>
        rw [List.filterMap_cons]
        have hnone : partAt presRelsPartName e' = none := by
          unfold partAt
          rw [if_neg (by rw [writeBaseEntry_name ct pr px f e' hwe]; exact hf)]
        rw [hnone]
        exact ihr

theorem startsSlidePart_slidePartName (j : Nat) :
    startsSlidePart (slidePartName j) = true := by
  simp [startsSlidePart, slidePartName, List.isPrefixOf_iff_prefix]

theorem startsSlideRelPart_slideRelPartName (j : Nat) :
    startsSlideRelPart (slideRelPartName j) = true := by
  simp [startsSlideRelPart, slideRelPartName, List.isPrefixOf_iff_prefix]

theorem mem_writeSlidesFrom_starts (sm : List (Nat × Bytes)) :
    ∀ (l : List ((Nat × String) × Option (List (Rel × Option PartPath)))) (idx : Nat)
      (e : PartPath × OutData), e ∈ writeSlidesFrom sm idx l →
      startsSlidePart e.1 = true ∨ startsSlideRelPart e.1 = true := by
  intro l
  induction l with
  | nil =>
    intro idx e he
    simp [writeSlidesFrom] at he
  | cons x rest ih =>
    intro idx e he
    rw [writeSlidesFrom] at he
    rcases List.mem_cons.mp he with h | h
    · subst h
      exact Or.inl (startsSlidePart_slidePartName idx)
    · rcases List.mem_append.mp h with h2 | h2
      · cases hx2 : x.2 with
        | none => rw [hx2] at h2; cases h2
        | some rels =>
          rw [hx2] at h2
          simp at h2
          subst h2
          exact Or.inr (startsSlideRelPart_slideRelPartName idx)
      · exact ih (idx + 1) e h2

theorem writeSlidesFrom_at_nonslide (sm : List (Nat × Bytes))
    (l : List ((Nat × String) × Option (List (Rel × Option PartPath)))) (idx : Nat)
    (nm : PartPath) (h1 : startsSlidePart nm = false) (h2 : startsSlideRelPart nm = false) :
    (writeSlidesFrom sm idx l).filterMap (partAt nm) = [] := by
  rw [List.filterMap_eq_nil]
  intro e he
  unfold partAt
  rw [if_neg ?_]
  intro hx
  rcases mem_writeSlidesFrom_starts sm l idx e he with h | h
  · rw [hx, h1] at h; cases h
  · rw [hx, h2] at h; cases h

theorem tagPartName_at_special (parts : List (PartPath × Bytes)) (nm : PartPath)
    (hform : ∀ p ∈ parts.map Prod.fst, ∃ k, p = tagPartName k)
    (hnm : ∀ k, tagPartName k ≠ nm) :
    (parts.map (fun e => (e.1, OutData.rawData e.2))).filterMap (partAt nm) = [] := by
  rw [List.filterMap_eq_nil]
  intro e he
  obtain ⟨a, ha, hfa⟩ := List.mem_map.mp he
  cases hfa
  obtain ⟨k, hk⟩ := hform a.1 (List.mem_map.mpr ⟨a, ha, rfl⟩)
  unfold partAt
  rw [if_neg (by rw [hk]; exact hnm k)]

theorem tagPartName_ne_presRels (k : Nat) : tagPartName k ≠ presRelsPartName := by
  intro h
  have h2 : some "tags" = some "_rels" := by
    simpa [tagPartName, presRelsPartName, List.get?] using congrArg (fun l => l.get? 1) h
  exact absurd h2 (by decide)

theorem tagPartName_ne_ct (k : Nat) : tagPartName k ≠ ctPartName := by
  intro h
  have h2 := congrArg List.length h
  simp [tagPartName, ctPartName] at h2

/-! ### The fresh relationship ids -/

theorem ridNum_mkRid (n : Nat) : ridNum (mkRid n) = some n := by
  unfold ridNum mkRid
  have h := extractNum_canonical "rId".data [] n (Or.inl rfl)
  simpa using h

theorem mkRid_inj (m n : Nat) (h : mkRid m = mkRid n) : m = n := by
  have h1 := ridNum_mkRid m
  rw [h, ridNum_mkRid] at h1
  cases h1
  rfl

theorem mkRid_ne_empty (n : Nat) : mkRid n ≠ "" := by
  intro h
  have h2 := congrArg (fun s => s.data.length) h
  simp [mkRid] at h2

theorem ridNum_lt_nextRid (ids : List String) (s : String) (m : Nat)
    (hs : s ∈ ids) (hm : ridNum s = some m) : m < nextRid ids := by
  unfold nextRid
  have hmem : m ∈ ids.filterMap ridNum := List.mem_filterMap.mpr ⟨s, hs, hm⟩
  have := mem_le_foldl_max (ids.filterMap ridNum) 0 m hmem
  omega

theorem updatePresentationRels_spec (rels : List Rel) (n : Nat)
    (hnd : (rels.map Rel.relId).Nodup) :
    (((updatePresentationRels rels n).1.map Rel.relId).Nodup ∧
      (updatePresentationRels rels n).2 =
        (List.range n).map (fun i => mkRid (nextRid (existingIds rels) + i))) ∧
      ∀ s ∈ rels.map Rel.relId, ∀ m, ridNum s = some m → m < nextRid (existingIds rels) := by
  have hbound : ∀ s ∈ rels.map Rel.relId, ∀ m, ridNum s = some m →
      m < nextRid (existingIds rels) := by
    intro s hs m hm
    have hsne : s ≠ "" := by
      intro h
      rw [h] at hm
      cases hm
    have hsex : s ∈ existingIds rels := by
      unfold existingIds
      rw [List.mem_filter]
      exact ⟨hs, by simpa using hsne⟩
    exact ridNum_lt_nextRid (existingIds rels) s m hsex hm
  refine ⟨⟨?_, ?_⟩, hbound⟩
  · unfold updatePresentationRels
    simp only [List.map_append]
    rw [List.nodup_append]
    refine ⟨?_, ?_, ?_⟩
    · have hsub : ((rels.filter (fun r => ¬ strStarts r.target "slides/slide")).map Rel.relId).Sublist
          (rels.map Rel.relId) := (List.filter_sublist rels).map Rel.relId
      exact hnd.sublist hsub
    · rw [List.map_map]
      refine List.Nodup.map ?_ (List.nodup_range n)
      intro a b hab
      have hab2 : mkRid (nextRid (existingIds rels) + a) =
          mkRid (nextRid (existingIds rels) + b) := hab
      have := mkRid_inj _ _ hab2
      omega
    · intro s hs1 hs2
      obtain ⟨r, hr, hrid⟩ := List.mem_map.mp hs1
      rw [List.map_map] at hs2
      obtain ⟨i, hi, hmk⟩ := List.mem_map.mp hs2
      have hmk2 : mkRid (nextRid (existingIds rels) + i) = s := hmk
      have hsrels : s ∈ rels.map Rel.relId := by
        refine List.mem_map.mpr ⟨r, List.mem_of_mem_filter hr, hrid⟩
      have hrn : ridNum s = some (nextRid (existingIds rels) + i) := by
        rw [← hmk2]
        exact ridNum_mkRid _
      have := hbound s hsrels _ hrn
      omega
  · simp only [updatePresentationRels]
    rw [List.map_map]
    rfl

/-! ### C1: the output's slide parts are exactly the renumbered plan picks -/

/-- C1 (claim): a successful assembly's output contains exactly N slide parts
`ppt/slides/slide1.xml` … `ppt/slides/slideN.xml` for an N-entry plan, in plan
order, slide i carrying byte-for-byte the template slide part referenced by
entry i's `template_page_num`; a template page reused by two entries yields
two separate slide parts, each with its own copy of those bytes. -/
theorem c1_slides_exact (t : Template) (pages : List PlanPage)
    (out : List (PartPath × OutData)) (hb : buildFromJson t pages = .ok out) :
    (out.filterMap slideEntry).length = pages.length ∧
      ∀ i p, pages.get? i = some p →
        ∃ tn b, p.templatePageNum = some tn ∧
          lookupNum (slideMap t.files) tn = some b ∧
          (out.filterMap slideEntry).get? i = some (i + 1, OutData.rawData b) := by
  obtain ⟨selected, hsel, hout⟩ := buildFromJson_ok_inv t pages out hb
  obtain ⟨hlen, hall⟩ := checkPagesFrom_ok_spec (slideMap t.files) pages 1 selected hsel
  obtain ⟨ks, _, _, _, _, hfiles, _, _⟩ :=
    prepareRels_spec t.files t.relsOf (slideRelMap t.files) selected (initTagSt t)
  have htags : ((prepareRels t.files t.relsOf (slideRelMap t.files) (initTagSt t) selected).1.extraTagFiles.map
      (fun e => (e.1, OutData.rawData e.2))).filterMap slideEntry = [] := by
    rw [List.filterMap_eq_nil]
    intro e he
    obtain ⟨a, ha, hfa⟩ := List.mem_map.mp he
    cases hfa
    have hn : a.1 ∈ (prepareRels t.files t.relsOf (slideRelMap t.files) (initTagSt t) selected).1.extraTagFiles.map Prod.fst :=
      List.mem_map.mpr ⟨a, ha, rfl⟩
    rw [hfiles] at hn
    simp only [initTagSt, List.map_nil, List.nil_append] at hn
    obtain ⟨k, _, hk⟩ := List.mem_map.mp hn
    unfold slideEntry
    simp [← hk, slideNum_tagPartName]
  have hzlen : (selected.zip (prepareRels t.files t.relsOf (slideRelMap t.files) (initTagSt t) selected).2).length = selected.length := by
    have := prepareRels_sndLength t.files t.relsOf (slideRelMap t.files) selected (initTagSt t)
    simp [List.length_zip, this]
  obtain ⟨wslen, wsget⟩ := writeSlidesFrom_slideEntries (slideMap t.files)
    (selected.zip (prepareRels t.files t.relsOf (slideRelMap t.files) (initTagSt t) selected).2) 1
  have hfm : out.filterMap slideEntry =
      (writeSlidesFrom (slideMap t.files) 1
        (selected.zip (prepareRels t.files t.relsOf (slideRelMap t.files) (initTagSt t) selected).2)).filterMap slideEntry := by
    rw [hout, List.filterMap_append, List.filterMap_append, writeBase_no_slideEntry, htags]
    simp
  constructor
  · rw [hfm, wslen, hzlen, hlen]
  · intro i p hp
    obtain ⟨tn, htn, hsome, hseli⟩ := hall i p hp
    obtain ⟨b, hbv⟩ := Option.isSome_iff_exists.mp hsome
    refine ⟨tn, b, htn, hbv, ?_⟩
    have hi : i < selected.length := by
      have h2 := List.get?_eq_some.mp hseli
      exact h2.1
    obtain ⟨y, hzget⟩ := get?_zip_left selected
      (prepareRels t.files t.relsOf (slideRelMap t.files) (initTagSt t) selected).2 i
      (tn, pageTypeOf p) hseli (by
        rw [prepareRels_sndLength t.files t.relsOf (slideRelMap t.files) selected (initTagSt t)]
        exact hi)
    have hws := wsget i ((tn, pageTypeOf p), y) hzget
    rw [hfm, hws]
    simp [hbv]
    omega

/-- C1 witness: the sample assembly (three plan entries, template slide 1
reused twice) yields exactly three slide parts. -/
theorem c1_slides_exact_witness :
    buildFromJson sampleT samplePages = .ok sampleOut ∧
      (sampleOut.filterMap slideEntry).length = samplePages.length :=
  ⟨by decide, (c1_slides_exact sampleT samplePages sampleOut (by decide)).1⟩

/-! ### C3: no duplicate relationship ids, fresh consecutive slide rIds -/

/-- C3 (claim): every assembled output's `ppt/_rels/presentation.xml.rels` is
the rewritten relationship list, whose `Id` values are pairwise distinct and
include the `N` fresh slide ids; those fresh ids are the consecutive numeric
rIds starting at the first number strictly above every numeric rId of the
template's presentation relationships file. -/
theorem c3_rel_ids (t : Template) (pages : List PlanPage)
    (out : List (PartPath × OutData)) (hb : buildFromJson t pages = .ok out)
    (hndf : (t.files.map Prod.fst).Nodup)
    (hmem : presRelsPartName ∈ t.files.map Prod.fst)
    (hnd : (t.presRels.map Rel.relId).Nodup) :
    out.filterMap (partAt presRelsPartName) =
        [OutData.relsXml (updatePresentationRels t.presRels pages.length).1] ∧
      (((updatePresentationRels t.presRels pages.length).1.map Rel.relId).Nodup ∧
        ∀ s ∈ (updatePresentationRels t.presRels pages.length).2,
          s ∈ (updatePresentationRels t.presRels pages.length).1.map Rel.relId) ∧
      (updatePresentationRels t.presRels pages.length).2 =
        (List.range pages.length).map
          (fun i => mkRid (nextRid (existingIds t.presRels) + i)) ∧
      ∀ s ∈ t.presRels.map Rel.relId, ∀ m, ridNum s = some m →
        m < nextRid (existingIds t.presRels) := by
  obtain ⟨selected, hsel, hout⟩ := buildFromJson_ok_inv t pages out hb
  have hlen : selected.length = pages.length :=
    (checkPagesFrom_ok_spec (slideMap t.files) pages 1 selected hsel).1
  obtain ⟨⟨hnodup, hsnd⟩, hbound⟩ := updatePresentationRels_spec t.presRels pages.length hnd
  refine ⟨?_, ⟨hnodup, ?_⟩, hsnd, hbound⟩
  · obtain ⟨ks, _, _, _, _, hfiles, _, _⟩ :=
      prepareRels_spec t.files t.relsOf (slideRelMap t.files) selected (initTagSt t)
    have hform : ∀ p ∈ (prepareRels t.files t.relsOf (slideRelMap t.files) (initTagSt t)
        selected).1.extraTagFiles.map Prod.fst, ∃ k, p = tagPartName k := by
      intro p hp
      rw [hfiles] at hp
      simp only [initTagSt, List.map_nil, List.nil_append] at hp
      obtain ⟨k, _, hk⟩ := List.mem_map.mp hp
      exact ⟨k, hk.symm⟩
    rw [hout, hlen, List.filterMap_append, List.filterMap_append]
    rw [writeBase_at_presRels t.files _ _ _ hndf hmem]
    rw [writeSlidesFrom_at_nonslide (slideMap t.files) _ 1 presRelsPartName rfl rfl]
    rw [tagPartName_at_special _ presRelsPartName hform tagPartName_ne_presRels]
    simp
  · intro s hs
    simp only [updatePresentationRels] at hs ⊢
    rw [List.map_append]
    exact List.mem_append.mpr (Or.inr hs)

/-- C3 witness: the sample assembly (template rIds 1, 2, 7; three fresh slide
rIds 8, 9, 10). -/
theorem c3_rel_ids_witness :
    buildFromJson sampleT samplePages = .ok sampleOut ∧
      (sampleT.files.map Prod.fst).Nodup ∧
      presRelsPartName ∈ sampleT.files.map Prod.fst ∧
      (sampleT.presRels.map Rel.relId).Nodup ∧
      sampleOut.filterMap (partAt presRelsPartName) =
        [OutData.relsXml (updatePresentationRels sampleT.presRels samplePages.length).1] :=
  ⟨by decide, by decide, by decide, by decide,
    (c3_rel_ids sampleT samplePages sampleOut (by decide) (by decide) (by decide)
      (by decide)).1⟩

/-! ### C4: cloned tag relationships target distinct fresh parts -/

theorem tagPartName_inj (m n : Nat) (h : tagPartName m = tagPartName n) : m = n := by
  have h1 := tagNum_tagPartName m
  rw [h, tagNum_tagPartName] at h1
  cases h1
  rfl

theorem tagNum_le_maxTagNum (files : List (PartPath × Bytes)) (nm : PartPath) (k : Nat)
    (hnm : nm ∈ files.map Prod.fst) (h : tagNum nm = some k) : k ≤ maxTagNum files := by
  obtain ⟨e, he, hfst⟩ := List.mem_map.mp hnm
  have hmem : k ∈ files.filterMap (fun e => tagNum e.1) :=
    List.mem_filterMap.mpr ⟨e, he, by rw [hfst, h]⟩
  exact mem_le_foldl_max _ 0 k hmem

theorem tagPartName_fresh (files : List (PartPath × Bytes)) (k : Nat)
    (hk : maxTagNum files < k) : tagPartName k ∉ files.map Prod.fst := by
  intro hmem
  have := tagNum_le_maxTagNum files (tagPartName k) k hmem (tagNum_tagPartName k)
  omega

theorem chain_lt_nodup (ks : List Nat) (h : List.Chain' (· < ·) ks) : ks.Nodup := by
  have hp := List.chain'_iff_pairwise.mp h
  exact hp.imp Nat.ne_of_lt

theorem targetData_tagPartName (k : Nat) :
    (joinSlash (relpathSegs (tagPartName k) pptSlidesDir)).data =
      "../tags/tag".data ++ (decDigits k ++ ".xml".data) := by
  have h0 : (joinSlash (relpathSegs (tagPartName k) pptSlidesDir)).data =
      "..".data ++ '/' :: ("tags".data ++ '/' :: ("tag".data ++ decDigits k ++ ".xml".data)) :=
    rfl
  rw [h0]
  have hlit : "../tags/tag".data = "..".data ++ '/' :: ("tags".data ++ '/' :: "tag".data) := by
    decide
  rw [hlit]
  simp [List.append_assoc]

theorem targetNum_tagPartName (k : Nat) :
    extractNum "../tags/tag".data ".xml".data
      (joinSlash (relpathSegs (tagPartName k) pptSlidesDir)).data = some k := by
  rw [targetData_tagPartName]
  have h := extractNum_canonical "../tags/tag".data ".xml".data k
    (Or.inr ⟨'.', "xml".data, by decide, by decide⟩)
  simpa [List.append_assoc] using h

theorem mem_clonedPairsOf (prepared : List (Option (List (Rel × Option PartPath))))
    (pr : Rel × PartPath) (h : pr ∈ clonedPairsOf prepared) :
    ∃ lrel, some lrel ∈ prepared ∧ (pr.1, some pr.2) ∈ lrel := by
  induction prepared with
  | nil => simp [clonedPairsOf] at h
  | cons o rest ih =>
    cases o with
    | none =>
      have hs : clonedPairsOf (none :: rest) = clonedPairsOf rest := rfl
      rw [hs] at h
      obtain ⟨lrel, h1, h2⟩ := ih h
      exact ⟨lrel, List.mem_cons_of_mem _ h1, h2⟩
    | some l =>
      have hs : clonedPairsOf (some l :: rest) =
          l.filterMap (fun x => x.2.map (fun p => (x.1, p))) ++ clonedPairsOf rest := rfl
      rw [hs] at h
      rcases List.mem_append.mp h with h1 | h1
      · obtain ⟨⟨xr, xo⟩, hx, hx2⟩ := List.mem_filterMap.mp h1
        cases xo with
        | none => cases hx2
        | some p =>
          have hx3 : (xr, p) = pr := by simpa using hx2
          refine ⟨l, List.mem_cons_self _ _, ?_⟩
          rw [← hx3]
          simpa using hx
      · obtain ⟨lrel, h2, h3⟩ := ih h1
        exact ⟨lrel, List.mem_cons_of_mem _ h2, h3⟩

theorem get?_zip_right {α β : Type} :
    ∀ (l2 : List β) (l1 : List α) (i : Nat) (y : β),
      l2.get? i = some y → i < l1.length → ∃ x, (l1.zip l2).get? i = some (x, y) := by
  intro l2
  induction l2 with
  | nil =>
    intro l1 i y hy
    simp [List.get?] at hy
  | cons b l2t ih =>
    intro l1 i y hy hi
    cases l1 with
    | nil => simp at hi
    | cons a l1t =>
      cases i with
      | zero =>
        rw [List.get?_cons_zero] at hy
        cases hy
        exact ⟨a, rfl⟩
      | succ j =>
        rw [List.get?_cons_succ] at hy
        simp only [List.length_cons] at hi
        obtain ⟨x, hx⟩ := ih l1t j y hy (by omega)
        exact ⟨x, by simpa [List.zip_cons_cons] using hx⟩

theorem writeSlidesFrom_mem_rels (sm : List (Nat × Bytes)) :
    ∀ (l : List ((Nat × String) × Option (List (Rel × Option PartPath)))) (idx k : Nat)
      (e : (Nat × String) × Option (List (Rel × Option PartPath)))
      (rels : List (Rel × Option PartPath)),
      l.get? k = some e → e.2 = some rels →
      (slideRelPartName (idx + k), OutData.relsXml (rels.map (fun x => x.1))) ∈
        writeSlidesFrom sm idx l := by
  intro l
  induction l with
  | nil =>
    intro idx k e rels hk
    simp [List.get?] at hk
  | cons x rest ih =>
    intro idx k e rels hk he
    rw [writeSlidesFrom]
    cases k with
    | zero =>
      rw [List.get?_cons_zero] at hk
      cases hk
      rw [he]
      refine List.mem_cons_of_mem _ (List.mem_append.mpr (Or.inl ?_))
      simp
    | succ j =>
      rw [List.get?_cons_succ] at hk
      have hmem := ih (idx + 1) j e rels hk he
      refine List.mem_cons_of_mem _ (List.mem_append.mpr (Or.inr ?_))
      have harith : idx + 1 + j = idx + (j + 1) := by omega
      rw [harith] at hmem
      exact hmem

/-- C4 (claim): in a successful assembly, the cloned "tags" relationships are
pairwise repointed to distinct fresh tag parts: the cloned parts are pairwise
distinct, the rewritten targets are pairwise distinct, and each cloned
relationship has type "tags", targets its own fresh part (absent from the
template), that part is a member of the output archive, and the rewritten
relationship itself appears in one of the output's per-slide relationship
files. -/
theorem c4_tag_clones (t : Template) (pages : List PlanPage)
    (out : List (PartPath × OutData)) (hb : buildFromJson t pages = .ok out) :
    ∃ selected pairs,
      checkPagesFrom (slideMap t.files) 1 pages = .ok selected ∧
      pairs = clonedPairsOf
        (prepareRels t.files t.relsOf (slideRelMap t.files) (initTagSt t) selected).2 ∧
      (pairs.map Prod.snd).Nodup ∧
      (pairs.map (fun pr => pr.1.target)).Nodup ∧
      ∀ pr ∈ pairs,
        pr.1.relType = tagsRelTypeStr ∧
        pr.1.target = joinSlash (relpathSegs pr.2 pptSlidesDir) ∧
        pr.2 ∉ t.files.map Prod.fst ∧
        pr.2 ∈ out.map Prod.fst ∧
        ∃ j rl, (slideRelPartName j, OutData.relsXml rl) ∈ out ∧ pr.1 ∈ rl := by
  obtain ⟨selected, hsel, hout⟩ := buildFromJson_ok_inv t pages out hb
  obtain ⟨ks, _, hchain, hkb, _, hfiles, hsnd, htag⟩ :=
    prepareRels_spec t.files t.relsOf (slideRelMap t.files) selected (initTagSt t)
  have hksnd : (clonedPairsOf (prepareRels t.files t.relsOf (slideRelMap t.files)
      (initTagSt t) selected).2).map Prod.snd = ks.map tagPartName := hsnd
  have hfiles2 : (prepareRels t.files t.relsOf (slideRelMap t.files)
      (initTagSt t) selected).1.extraTagFiles.map Prod.fst = ks.map tagPartName := by
    rw [hfiles]
    simp [initTagSt]
  have ksnodup : ks.Nodup := chain_lt_nodup ks hchain
  refine ⟨selected, _, hsel, rfl, ?_, ?_, ?_⟩
  · rw [hksnd]
    refine List.Nodup.map ?_ ksnodup
    intro a b hab
    exact tagPartName_inj a b hab
  · have h1 : (clonedPairsOf (prepareRels t.files t.relsOf (slideRelMap t.files)
        (initTagSt t) selected).2).map (fun pr => pr.1.target) =
        (clonedPairsOf (prepareRels t.files t.relsOf (slideRelMap t.files)
          (initTagSt t) selected).2).map
          (fun pr => joinSlash (relpathSegs pr.2 pptSlidesDir)) :=
      List.map_congr_left (fun pr hpr => (htag pr hpr).1)
    rw [h1]
    have h2 : (clonedPairsOf (prepareRels t.files t.relsOf (slideRelMap t.files)
        (initTagSt t) selected).2).map
          (fun pr => joinSlash (relpathSegs pr.2 pptSlidesDir)) =
        ((clonedPairsOf (prepareRels t.files t.relsOf (slideRelMap t.files)
          (initTagSt t) selected).2).map Prod.snd).map
          (fun p => joinSlash (relpathSegs p pptSlidesDir)) := by
      rw [List.map_map]
      rfl
    rw [h2, hksnd, List.map_map]
    refine List.Nodup.map ?_ ksnodup
    intro a b hab
    have ha := targetNum_tagPartName a
    rw [show (joinSlash (relpathSegs (tagPartName a) pptSlidesDir)) =
        (joinSlash (relpathSegs (tagPartName b) pptSlidesDir)) from hab,
      targetNum_tagPartName b] at ha
    exact (Option.some.inj ha).symm
  · intro pr hpr
    have hmemsnd : pr.2 ∈ ks.map tagPartName := by
      rw [← hksnd]
      exact List.mem_map.mpr ⟨pr, hpr, rfl⟩
    obtain ⟨k, hkmem, hkeq⟩ := List.mem_map.mp hmemsnd
    have hkgt : maxTagNum t.files < k := (hkb k hkmem).1
    refine ⟨(htag pr hpr).2, (htag pr hpr).1, ?_, ?_, ?_⟩
    · rw [← hkeq]
      exact tagPartName_fresh t.files k hkgt
    · have hmemfiles : pr.2 ∈ (prepareRels t.files t.relsOf (slideRelMap t.files)
          (initTagSt t) selected).1.extraTagFiles.map Prod.fst := by
        rw [hfiles2]
        exact hmemsnd
      obtain ⟨e, he, hefst⟩ := List.mem_map.mp hmemfiles
      rw [hout]
      refine List.mem_map.mpr ⟨(e.1, OutData.rawData e.2), ?_, hefst⟩
      refine List.mem_append.mpr (Or.inr ?_)
      exact List.mem_map.mpr ⟨e, he, rfl⟩
    · obtain ⟨lrel, hlmem, hprin⟩ := mem_clonedPairsOf _ pr hpr
      obtain ⟨i, hi⟩ := List.mem_iff_get?.mp hlmem
      have hilt : i < selected.length := by
        have h2 := (List.get?_eq_some.mp hi).1
        rw [prepareRels_sndLength t.files t.relsOf (slideRelMap t.files) selected
          (initTagSt t)] at h2
        exact h2
      obtain ⟨x, hzip⟩ := get?_zip_right _ selected i (some lrel) hi hilt
      have hws := writeSlidesFrom_mem_rels (slideMap t.files)
        (selected.zip (prepareRels t.files t.relsOf (slideRelMap t.files)
          (initTagSt t) selected).2) 1 i (x, some lrel) lrel hzip rfl
      refine ⟨1 + i, lrel.map (fun x => x.1), ?_, ?_⟩
      · rw [hout]
        exact List.mem_append.mpr (Or.inl (List.mem_append.mpr (Or.inr hws)))
      · exact List.mem_map.mpr ⟨(pr.1, some pr.2), hprin, rfl⟩

/-- C4 witness: the sample assembly clones the tag part twice (template slide
1 is selected twice), producing fresh parts tag4 and tag5 with distinct
targets. -/
theorem c4_tag_clones_witness :
    buildFromJson sampleT samplePages = .ok sampleOut ∧
      ∃ selected pairs,
        checkPagesFrom (slideMap sampleT.files) 1 samplePages = .ok selected ∧
        pairs = clonedPairsOf
          (prepareRels sampleT.files sampleT.relsOf (slideRelMap sampleT.files)
            (initTagSt sampleT) selected).2 ∧
        (pairs.map Prod.snd).Nodup ∧
        (pairs.map (fun pr => pr.1.target)).Nodup ∧
        ∀ pr ∈ pairs,
          pr.1.relType = tagsRelTypeStr ∧
          pr.1.target = joinSlash (relpathSegs pr.2 pptSlidesDir) ∧
          pr.2 ∉ sampleT.files.map Prod.fst ∧
          pr.2 ∈ sampleOut.map Prod.fst ∧
          ∃ j rl, (slideRelPartName j, OutData.relsXml rl) ∈ sampleOut ∧ pr.1 ∈ rl :=
  ⟨by decide, c4_tag_clones sampleT samplePages sampleOut (by decide)⟩

/-! ### C5: content-type overrides are rewritten -/

theorem writeBase_at_ct (files : List (PartPath × Bytes)) (ct : List CTO)
    (pr : List Rel) (px : List (String × Nat))
    (hnd : (files.map Prod.fst).Nodup) (hmem : ctPartName ∈ files.map Prod.fst) :
    (writeBase files ct pr px).filterMap (partAt ctPartName) = [OutData.ctXml ct] := by
  induction files with
  | nil => simp at hmem
  | cons f rest ih =>
    have hnd2 := hnd
    rw [List.map_cons, List.nodup_cons] at hnd2
    by_cases hf : f.1 = ctPartName
    · have hf2 : f = (ctPartName, f.2) := by
        rw [← hf]
      have hrw : writeBaseEntry ct pr px f = some (ctPartName, OutData.ctXml ct) := by
        rw [hf2]
        rfl
      have hrest : (writeBase rest ct pr px).filterMap (partAt ctPartName) = [] :=
        writeBase_at_notmem rest ct pr px ctPartName (by rw [← hf]; exact hnd2.1)
      have hp : partAt ctPartName (ctPartName, OutData.ctXml ct) = some (OutData.ctXml ct) := by
        unfold partAt
        rw [if_pos rfl]
      unfold writeBase at hrest ⊢
      simp only [List.filterMap_cons, hrw, hp]
      rw [hrest]
    · have hmem2 : ctPartName ∈ rest.map Prod.fst := by
        rw [List.map_cons] at hmem
        rcases List.mem_cons.mp hmem with h | h
        · exact absurd h.symm hf
        · exact h
      have ihr := ih hnd2.2 hmem2
      unfold writeBase at ihr ⊢
      rw [List.filterMap_cons]
      cases hwe : writeBaseEntry ct pr px f with
      | none => exact ihr
      | some e' =>
        rw [List.filterMap_cons]
        have hnone : partAt ctPartName e' = none := by
          unfold partAt
          rw [if_neg (by rw [writeBaseEntry_name ct pr px f e' hwe]; exact hf)]
        rw [hnone]
        exact ihr

theorem slideOverride_isSlide (i : Nat) :
    strStarts (slideOverridePart i) "/ppt/slides/slide" = true := by
  simp [strStarts, slideOverridePart, List.isPrefixOf_iff_prefix, List.append_assoc,
    List.prefix_append]

theorem tagOverride_not_slide (k : Nat) :
    strStarts (String.mk ('/' :: joinSlashData (tagPartName k))) "/ppt/slides/slide" =
      false := rfl

theorem updateContentTypes_slide_filter (ovs : List CTO) (n : Nat) (parts : List PartPath)
    (hparts : ∀ p ∈ parts, ∃ k, p = tagPartName k) :
    (updateContentTypes ovs n parts).filter
        (fun o => strStarts o.partName "/ppt/slides/slide") =
      (List.range n).map (fun i => CTO.mk (slideOverridePart (i + 1)) slideCTStr) := by
  unfold updateContentTypes
  simp only [List.filter_append]
  have h1 : (ovs.filter (fun o => ¬ strStarts o.partName "/ppt/slides/slide")).filter
      (fun o => strStarts o.partName "/ppt/slides/slide") = [] := by
    rw [List.filter_eq_nil]
    intro o ho
    have h := List.of_mem_filter ho
    simp at h ⊢
    exact h
  have h2 : ((List.range n).map (fun i => CTO.mk (slideOverridePart (i + 1)) slideCTStr)).filter
      (fun o => strStarts o.partName "/ppt/slides/slide") =
      (List.range n).map (fun i => CTO.mk (slideOverridePart (i + 1)) slideCTStr) := by
    rw [List.filter_eq_self]
    intro o ho
    obtain ⟨i, _, hio⟩ := List.mem_map.mp ho
    rw [← hio]
    simp [slideOverride_isSlide]
  have h3 : (parts.map (fun p => CTO.mk (String.mk ('/' :: joinSlashData p)) tagsCTStr)).filter
      (fun o => strStarts o.partName "/ppt/slides/slide") = [] := by
    rw [List.filter_eq_nil]
    intro o ho
    obtain ⟨p, hp, hpo⟩ := List.mem_map.mp ho
    obtain ⟨k, hk⟩ := hparts p hp
    rw [← hpo, hk]
    simp [tagOverride_not_slide]
  rw [h1, h2, h3]
  simp

/-- C5 (claim): a successful assembly's `[Content_Types].xml` consists of the
template overrides minus every prior per-slide override, followed by exactly
`N` fresh slide overrides `/ppt/slides/slide1.xml` … `/ppt/slides/slideN.xml`,
followed by one override per newly cloned tag part; in particular its
per-slide overrides are exactly the `N` fresh ones. -/
theorem c5_content_types (t : Template) (pages : List PlanPage)
    (out : List (PartPath × OutData)) (hb : buildFromJson t pages = .ok out)
    (hndf : (t.files.map Prod.fst).Nodup)
    (hmemct : ctPartName ∈ t.files.map Prod.fst) :
    ∃ (selected : List (Nat × String)) (ks : List Nat) (L : List CTO),
      checkPagesFrom (slideMap t.files) 1 pages = .ok selected ∧
      out.filterMap (partAt ctPartName) = [OutData.ctXml L] ∧
      (clonedPairsOf (prepareRels t.files t.relsOf (slideRelMap t.files) (initTagSt t)
        selected).2).map Prod.snd = ks.map tagPartName ∧
      L = t.overrides.filter (fun o => ¬ strStarts o.partName "/ppt/slides/slide") ++
          (List.range pages.length).map
            (fun i => CTO.mk (slideOverridePart (i + 1)) slideCTStr) ++
          (ks.map tagPartName).map
            (fun p => CTO.mk (String.mk ('/' :: joinSlashData p)) tagsCTStr) ∧
      L.filter (fun o => strStarts o.partName "/ppt/slides/slide") =
        (List.range pages.length).map
          (fun i => CTO.mk (slideOverridePart (i + 1)) slideCTStr) := by
  obtain ⟨selected, hsel, hout⟩ := buildFromJson_ok_inv t pages out hb
  have hlen : selected.length = pages.length :=
    (checkPagesFrom_ok_spec (slideMap t.files) pages 1 selected hsel).1
  obtain ⟨ks, _, _, _, hparts, hfiles, hsnd, _⟩ :=
    prepareRels_spec t.files t.relsOf (slideRelMap t.files) selected (initTagSt t)
  have hparts2 : (prepareRels t.files t.relsOf (slideRelMap t.files) (initTagSt t)
      selected).1.extraTagParts = ks.map tagPartName := by
    rw [hparts]
    simp [initTagSt]
  have hform : ∀ p ∈ (prepareRels t.files t.relsOf (slideRelMap t.files) (initTagSt t)
      selected).1.extraTagFiles.map Prod.fst, ∃ k, p = tagPartName k := by
    intro p hp
    rw [hfiles] at hp
    simp only [initTagSt, List.map_nil, List.nil_append] at hp
    obtain ⟨k, _, hk⟩ := List.mem_map.mp hp
    exact ⟨k, hk.symm⟩
  refine ⟨selected, ks,
    updateContentTypes t.overrides pages.length (ks.map tagPartName),
    hsel, ?_, hsnd, rfl, ?_⟩
  · rw [hout, hlen, hparts2, List.filterMap_append, List.filterMap_append]
    rw [writeBase_at_ct t.files _ _ _ hndf hmemct]
    rw [writeSlidesFrom_at_nonslide (slideMap t.files) _ 1 ctPartName rfl rfl]
    rw [tagPartName_at_special _ ctPartName hform tagPartName_ne_ct]
    simp
  · exact updateContentTypes_slide_filter t.overrides pages.length (ks.map tagPartName)
      (by intro p hp; obtain ⟨k, _, hk⟩ := List.mem_map.mp hp; exact ⟨k, hk.symm⟩)

/-- C5 witness: the sample assembly (one prior slide override removed, three
fresh slide overrides, two tag overrides). -/
theorem c5_content_types_witness :
    (buildFromJson sampleT samplePages = .ok sampleOut ∧
      (sampleT.files.map Prod.fst).Nodup ∧
      ctPartName ∈ sampleT.files.map Prod.fst) ∧
      ∃ (selected : List (Nat × String)) (ks : List Nat) (L : List CTO),
        checkPagesFrom (slideMap sampleT.files) 1 samplePages = .ok selected ∧
        sampleOut.filterMap (partAt ctPartName) = [OutData.ctXml L] ∧
        (clonedPairsOf (prepareRels sampleT.files sampleT.relsOf (slideRelMap sampleT.files)
          (initTagSt sampleT) selected).2).map Prod.snd = ks.map tagPartName ∧
        L = sampleT.overrides.filter
              (fun o => ¬ strStarts o.partName "/ppt/slides/slide") ++
            (List.range samplePages.length).map
              (fun i => CTO.mk (slideOverridePart (i + 1)) slideCTStr) ++
            (ks.map tagPartName).map
              (fun p => CTO.mk (String.mk ('/' :: joinSlashData p)) tagsCTStr) ∧
        L.filter (fun o => strStarts o.partName "/ppt/slides/slide") =
          (List.range samplePages.length).map
            (fun i => CTO.mk (slideOverridePart (i + 1)) slideCTStr) :=
  ⟨⟨by decide, by decide, by decide⟩,
    c5_content_types sampleT samplePages sampleOut (by decide) (by decide) (by decide)⟩

/-! ### C9: missing or empty picture paths -/

/-- C9 (counterexample): an empty picture value removes the placeholder with
no recorded warning; the warning only appears for a nonempty path that is not
a file. -/
theorem c9_counterexample :
    replacePicture c9shape "" (fun _ => false) (fun _ => none) =
        .ok [Ev.removeShape 7] ∧
      replacePicture c9shape "missing.png" (fun _ => false) (fun _ => none) =
        .ok [Ev.warnImage "missing.png", Ev.removeShape 7] := by
  decide

theorem replacePicture_ok (d : ShapeD) (path : String) (fs : String → Bool)
    (imgSize : String → Option (Nat × Nat)) (hfs : ∀ p, fs p = false) :
    ∃ evs, replacePicture d path fs imgSize = .ok evs := by
  unfold replacePicture
  by_cases h : path = ""
  · exact ⟨[Ev.removeShape d.sid], by rw [if_pos h]⟩
  · refine ⟨[Ev.warnImage path, Ev.removeShape d.sid], ?_⟩
    rw [if_neg h, if_pos (by simp [hfs path])]

theorem structuralPass_ok (cm : List (List String × String)) (fs : String → Bool)
    (imgSize : String → Option (Nat × Nat)) (hfs : ∀ p, fs p = false) :
    ∀ (l : List (ShapeD × List String)) (pfx : Option String),
      ∃ r, structuralPass cm fs imgSize l pfx = .ok r := by
  intro l
  induction l with
  | nil =>
    intro pfx
    exact ⟨([], [], []), rfl⟩
  | cons e rest ih =>
    intro pfx
    obtain ⟨d, rawPath⟩ := e
    obtain ⟨tl, htl⟩ := ih pfx
    by_cases hl : normalizePath rawPath pfx = []
    · exact ⟨tl, by simp [structuralPass, htl, hl]; rfl⟩
    · cases hlk : lookupCM cm (normalizePath rawPath pfx) with
      | none => exact ⟨tl, by simp [structuralPass, htl, hl, hlk]; rfl⟩
      | some v =>
        by_cases hpic : isPictureShape d
        · obtain ⟨evs, hevs⟩ := replacePicture_ok d v fs imgSize hfs
          exact ⟨(evs ++ tl.1, normalizePath rawPath pfx :: tl.2.1, d.sid :: tl.2.2),
            by simp [structuralPass, htl, hl, hlk, hpic, hevs]; rfl⟩
        · by_cases htf : d.tf.isSome
          · by_cases hv : v = ""
            · exact ⟨(Ev.clearText d.sid :: tl.1, normalizePath rawPath pfx :: tl.2.1,
                d.sid :: tl.2.2), by simp [structuralPass, htl, hl, hlk, hpic, htf, hv]; rfl⟩
            · exact ⟨(Ev.setText d.sid v :: tl.1, normalizePath rawPath pfx :: tl.2.1,
                d.sid :: tl.2.2), by simp [structuralPass, htl, hl, hlk, hpic, htf, hv]; rfl⟩
          · exact ⟨tl, by simp [structuralPass, htl, hl, hlk, hpic, htf]; rfl⟩

theorem fallbackPass_ok (maps : SlideMaps) (fs : String → Bool)
    (imgSize : String → Option (Nat × Nat)) (hfs : ∀ p, fs p = false) :
    ∀ (keys : List (String × String)) (textPh picPh : List ShapeD),
      ∃ r, fallbackPass maps fs imgSize keys textPh picPh = .ok r := by
  intro keys
  induction keys with
  | nil =>
    intro t p
    exact ⟨([], [], [], []), rfl⟩
  | cons kv rest ih =>
    intro textPh picPh
    obtain ⟨k, v⟩ := kv
    obtain ⟨tl, htl⟩ := ih (fallbackFind maps k textPh picPh).2.1
      (fallbackFind maps k textPh picPh).2.2.1
    cases hr1 : (fallbackFind maps k textPh picPh).1 with
    | none =>
      refine ⟨(Ev.warnNoShape k :: tl.1, k :: tl.2.1,
        (fallbackFind maps k textPh picPh).2.2.2.1 ++ tl.2.2.1,
        (fallbackFind maps k textPh picPh).2.2.2.2 ++ tl.2.2.2), ?_⟩
      simp [fallbackPass, hr1, htl]
      rfl
    | some sh =>
      by_cases hpic : isPictureShape sh
      · obtain ⟨evs, hevs⟩ := replacePicture_ok sh v fs imgSize hfs
        refine ⟨(evs ++ tl.1, k :: tl.2.1,
          (fallbackFind maps k textPh picPh).2.2.2.1 ++ tl.2.2.1,
          (fallbackFind maps k textPh picPh).2.2.2.2 ++ tl.2.2.2), ?_⟩
        simp [fallbackPass, hr1, hpic, hevs, htl]
        rfl
      · by_cases htf : sh.tf.isSome
        · by_cases hv : v = ""
          · refine ⟨([Ev.clearText sh.sid] ++ tl.1, k :: tl.2.1,
              (fallbackFind maps k textPh picPh).2.2.2.1 ++ tl.2.2.1,
              (fallbackFind maps k textPh picPh).2.2.2.2 ++ tl.2.2.2), ?_⟩
            simp [fallbackPass, hr1, hpic, htf, hv, htl]
            rfl
          · refine ⟨([Ev.setText sh.sid v] ++ tl.1, k :: tl.2.1,
              (fallbackFind maps k textPh picPh).2.2.2.1 ++ tl.2.2.1,
              (fallbackFind maps k textPh picPh).2.2.2.2 ++ tl.2.2.2), ?_⟩
            simp [fallbackPass, hr1, hpic, htf, hv, htl]
            rfl
        · refine ⟨([Ev.warnNotBindable k] ++ tl.1, k :: tl.2.1,
            (fallbackFind maps k textPh picPh).2.2.2.1 ++ tl.2.2.1,
            (fallbackFind maps k textPh picPh).2.2.2.2 ++ tl.2.2.2), ?_⟩
          simp [fallbackPass, hr1, hpic, htf, htl]
          rfl

theorem fillSlide_ok_of_fs_false (slide : ShapeForest) (content : CEntries)
    (fs : String → Bool) (imgSize : String → Option (Nat × Nat))
    (hfs : ∀ p, fs p = false) :
    ∃ fo, fillSlide slide content fs imgSize = .ok fo := by
  obtain ⟨s, hs⟩ := structuralPass_ok (flattenEs [] content) fs imgSize hfs
    (iterPathsForest [] 1 slide) (detectPrefix slide)
  obtain ⟨f, hf⟩ := fallbackPass_ok (buildMaps (iterForest slide)) fs imgSize hfs
    (scalarKeys content) (buildMaps (iterForest slide)).textPh
    (buildMaps (iterForest slide)).picPh
  refine ⟨⟨s.1 ++ f.1, s.2.1, s.2.2, f.2.1, f.2.2.1, f.2.2.2⟩, ?_⟩
  simp [fillSlide, hs, hf]
  rfl

/-- C9 (amended): an empty picture value removes the placeholder silently (no
warning is recorded); a nonempty path that is not a file records the warning
and removes the placeholder; in both cases the call returns normally, and
when every path is reported missing the whole slide binding completes
without an exception. -/
theorem c9_missing_picture (slide : ShapeForest) (content : CEntries) (d : ShapeD)
    (path : String) (fs : String → Bool) (imgSize : String → Option (Nat × Nat)) :
    (path = "" → replacePicture d path fs imgSize = .ok [Ev.removeShape d.sid]) ∧
    (path ≠ "" → fs path = false →
      replacePicture d path fs imgSize =
        .ok [Ev.warnImage path, Ev.removeShape d.sid]) ∧
    ((∀ p, fs p = false) → ∃ fo, fillSlide slide content fs imgSize = .ok fo) := by
  refine ⟨?_, ?_, ?_⟩
  · intro h
    unfold replacePicture
    rw [if_pos h]
  · intro h hf
    unfold replacePicture
    rw [if_neg h, if_pos (by simp [hf])]
  · intro hfs
    exact fillSlide_ok_of_fs_false slide content fs imgSize hfs

/-! ### C10: the layout pass's effect on geometry -/

theorem set_oob (l : List ShapeD) (i : Nat) (h : l.length ≤ i) (x : ShapeD) :
    l.set i x = l := by
  induction l generalizing i with
  | nil => rfl
  | cons a t ih =>
    cases i with
    | zero => simp at h
    | succ j =>
      simp only [List.set_cons_succ]
      rw [ih j (by simpa using h)]

theorem set_getD_self (l : List ShapeD) (i : Nat) (x : ShapeD) (h : i < l.length) :
    (l.set i x).getD i defaultShape = x := by
  induction l generalizing i with
  | nil => simp at h
  | cons a t ih =>
    cases i with
    | zero => rfl
    | succ j => exact ih j (by simpa using h)

theorem set_getD_ne (l : List ShapeD) (i j : Nat) (x : ShapeD) (h : i ≠ j) :
    (l.set i x).getD j defaultShape = l.getD j defaultShape := by
  induction l generalizing i j with
  | nil => rfl
  | cons a t ih =>
    cases i with
    | zero =>
      cases j with
      | zero => exact absurd rfl h
      | succ m => rfl
    | succ n =>
      cases j with
      | zero => rfl
      | succ m => exact ih n m (by omega)

theorem rat_floor_eq (q : ℚ) : Rat.floor q = Int.floor q := by
  rw [Rat.floor_def]
  unfold Rat.floor
  split
  · rename_i h
    rw [h]
    simp
  · rfl

theorem le_rat_ceil (n : Int) (q : ℚ) (h : (n : ℚ) ≤ q) : n ≤ Rat.ceil q := by
  unfold Rat.ceil
  split
  · rename_i hden
    have hq : (q.num : ℚ) = q := by
      rw [← Rat.den_eq_one_iff]
      exact hden
    rw [← hq] at h
    exact_mod_cast h
  · have h1 : q.num / (q.den : Int) = Int.floor q := Rat.floor_def.symm
    rw [h1]
    have h2 : q < Int.floor q + 1 := Int.lt_floor_add_one q
    have h3 : (n : ℚ) < ((Int.floor q + 1 : Int) : ℚ) := by
      push_cast
      exact lt_of_le_of_lt h h2
    have h4 : n < Int.floor q + 1 := by exact_mod_cast h3
    omega

theorem le_pyInt (n : Int) (q : ℚ) (h : (n : ℚ) ≤ q) : n ≤ pyInt q := by
  unfold pyInt
  split
  · exact le_rat_ceil n q h
  · rw [rat_floor_eq]
    exact Int.le_floor.mpr h

theorem geomLE_refl (a : ShapeD) : geomLE a a := ⟨le_refl _, le_refl _, rfl, rfl⟩

theorem geomLE_trans (a b c : ShapeD) (h1 : geomLE a b) (h2 : geomLE b c) : geomLE a c :=
  ⟨le_trans h1.1 h2.1, le_trans h2.2.1 h1.2.1, h2.2.2.1.trans h1.2.2.1,
    h2.2.2.2.trans h1.2.2.2⟩

theorem set_geom (l : List ShapeD) (i : Nat) (x : ShapeD)
    (h : geomLE (l.getD i defaultShape) x) :
    (l.set i x).length = l.length ∧
      ∀ j, geomLE (l.getD j defaultShape) ((l.set i x).getD j defaultShape) := by
  refine ⟨List.length_set l i x, ?_⟩
  intro j
  by_cases hij : i = j
  · subst hij
    by_cases hlt : i < l.length
    · rw [set_getD_self l i x hlt]
      exact h
    · rw [set_oob l i (by omega) x]
      exact geomLE_refl _
  · rw [set_getD_ne l i j x hij]
    exact geomLE_refl _

theorem adjustTextShape_geom (shapes : List ShapeD) (tIdx : Nat) (slideWidth : Int) :
    (adjustTextShape shapes tIdx slideWidth).length = shapes.length ∧
      ∀ j, geomLE (shapes.getD j defaultShape)
        ((adjustTextShape shapes tIdx slideWidth).getD j defaultShape) := by
  simp only [adjustTextShape]
  split
  · exact ⟨rfl, fun j => geomLE_refl _⟩
  · split
    · rename_i htarget
      split
      · refine set_geom shapes tIdx _ ?_
        exact ⟨le_pyInt _ _ (le_of_lt htarget), le_refl _, rfl, rfl⟩
      · refine ⟨?_, ?_⟩
        · rw [List.length_set, List.length_set]
        · intro j
          refine geomLE_trans _ _ _ ((set_geom shapes tIdx _ ?_).2 j)
            ((set_geom _ _ _ ?_).2 j)
          · exact ⟨le_pyInt _ _ (le_of_lt htarget), le_refl _, rfl, rfl⟩
          · exact ⟨le_pyInt _ _ (le_max_left _ _), min_le_left _ _, rfl, rfl⟩
    · split <;> split
      · refine set_geom shapes tIdx _ ?_
        exact ⟨le_refl _, le_refl _, rfl, rfl⟩
      · exact ⟨rfl, fun j => geomLE_refl _⟩
      · refine set_geom shapes tIdx _ ?_
        exact ⟨le_refl _, le_refl _, rfl, rfl⟩
      · exact ⟨rfl, fun j => geomLE_refl _⟩

theorem layoutStep_geom (slideWidth : Int) (cur : List ShapeD) (k : Nat) :
    (layoutStep slideWidth cur k).length = cur.length ∧
      ∀ j, geomLE (cur.getD j defaultShape)
        ((layoutStep slideWidth cur k).getD j defaultShape) := by
  simp only [layoutStep]
  split
  · exact ⟨rfl, fun j => geomLE_refl _⟩
  · split
    · exact ⟨rfl, fun j => geomLE_refl _⟩
    · exact adjustTextShape_geom cur k slideWidth

theorem foldl_layout_geom (slideWidth : Int) (ks : List Nat) :
    ∀ cur : List ShapeD,
      (ks.foldl (layoutStep slideWidth) cur).length = cur.length ∧
        ∀ j, geomLE (cur.getD j defaultShape)
          ((ks.foldl (layoutStep slideWidth) cur).getD j defaultShape) := by
  induction ks with
  | nil =>
    intro cur
    exact ⟨rfl, fun j => geomLE_refl _⟩
  | cons k rest ih =>
    intro cur
    have h1 := layoutStep_geom slideWidth cur k
    have h2 := ih (layoutStep slideWidth cur k)
    rw [List.foldl_cons]
    exact ⟨h2.1.trans h1.1, fun j => geomLE_trans _ _ _ (h1.2 j) (h2.2 j)⟩

/-- C10 (corrected claim): the layout pass indeed never shrinks any shape's
width, but font size is not the only quantity it decreases: every shape's
width only grows, its left edge only decreases (the detected background
companion is moved left to the text shape's edge), and top and height are
untouched. -/
theorem c10_geometry_monotone (shapes : List ShapeD) (slideWidth : Int) :
    (applyLayoutRules shapes slideWidth).length = shapes.length ∧
      ∀ j, geomLE (shapes.getD j defaultShape)
        ((applyLayoutRules shapes slideWidth).getD j defaultShape) := by
  unfold applyLayoutRules
  exact foldl_layout_geom slideWidth (List.range shapes.length) shapes

/-- C10 (counterexample): the layout pass moves the background companion's
left edge from 1,500,000 EMU to 0 while its text (hence font sizes) is
untouched — the adjuster decreases a geometric quantity, not only font
sizes. -/
theorem c10_counterexample :
    ((applyLayoutRules [cT, cO] 9144000).getD 1 defaultShape).left = 0 ∧
      cO.left = 1500000 ∧
      ((applyLayoutRules [cT, cO] 9144000).getD 1 defaultShape).left < cO.left ∧
      ((applyLayoutRules [cT, cO] 9144000).getD 1 defaultShape).tf = cO.tf := by
  decide

/-! ### C8: the fallback pass and placeholder reservation -/

/-- C8 (counterexample): with one placeholder text box whose name is also a
content key, the structural pass consumes that key and binds the box, yet the
fallback pass processes the same key again, and the next key pops the very
placeholder the structural pass already bound. -/
theorem c8_counterexample :
    fillSlide c8slide c8content (fun _ => false) (fun _ => none) = .ok c8out ∧
      c8out.structuralKeys = [["文本框 1"]] ∧
      c8out.structuralSids = [1] ∧
      c8out.fallbackKeys = ["文本框 1", "其他内容"] ∧
      c8out.textPopped = [1] := by
  decide

theorem fallbackFind_queues (maps : SlideMaps) (areaName : String)
    (textPh picPh : List ShapeD) :
    ((fallbackFind maps areaName textPh picPh).2.1 = textPh ∧
      (fallbackFind maps areaName textPh picPh).2.2.1 = picPh ∧
      (fallbackFind maps areaName textPh picPh).2.2.2.1 = [] ∧
      (fallbackFind maps areaName textPh picPh).2.2.2.2 = []) ∨
    (∃ sh rest, textPh = sh :: rest ∧
      (fallbackFind maps areaName textPh picPh).2.1 = rest ∧
      (fallbackFind maps areaName textPh picPh).2.2.1 = picPh ∧
      (fallbackFind maps areaName textPh picPh).2.2.2.1 = [sh.sid] ∧
      (fallbackFind maps areaName textPh picPh).2.2.2.2 = []) ∨
    (∃ sh rest, picPh = sh :: rest ∧
      (fallbackFind maps areaName textPh picPh).2.1 = textPh ∧
      (fallbackFind maps areaName textPh picPh).2.2.1 = rest ∧
      (fallbackFind maps areaName textPh picPh).2.2.2.1 = [] ∧
      (fallbackFind maps areaName textPh picPh).2.2.2.2 = [sh.sid]) := by
  simp only [fallbackFind]
  split
  · exact Or.inl ⟨rfl, rfl, rfl, rfl⟩
  · split
    · split
      · rename_i sh restPh
        exact Or.inr (Or.inl ⟨sh, restPh, rfl, rfl, rfl, rfl, rfl⟩)
      · split
        · split
          · rename_i sh restPh
            exact Or.inr (Or.inr ⟨sh, restPh, rfl, rfl, rfl, rfl, rfl⟩)
          · exact Or.inl ⟨rfl, rfl, rfl, rfl⟩
        · exact Or.inl ⟨rfl, rfl, rfl, rfl⟩
    · split
      · split
        · rename_i sh restPh
          exact Or.inr (Or.inr ⟨sh, restPh, rfl, rfl, rfl, rfl, rfl⟩)
        · exact Or.inl ⟨rfl, rfl, rfl, rfl⟩
      · exact Or.inl ⟨rfl, rfl, rfl, rfl⟩

theorem prefix_cons {α : Type} (a : α) (l1 l2 : List α) (h : l1 <+: l2) :
    a :: l1 <+: a :: l2 := by
  obtain ⟨t, ht⟩ := h
  exact ⟨t, by rw [List.cons_append, ht]⟩

theorem except_bind_ok {ε α β : Type} (a : α) (f : α → Except ε β) :
    (Except.ok a : Except ε α) >>= f = f a := rfl

theorem except_bind_err {ε α β : Type} (e : ε) (f : α → Except ε β) :
    (Except.error e : Except ε α) >>= f = Except.error e := rfl

theorem fallbackPass_spec (maps : SlideMaps) (fs : String → Bool)
    (imgSize : String → Option (Nat × Nat)) :
    ∀ (keys : List (String × String)) (textPh picPh : List ShapeD)
      (r : List Ev × List String × List Nat × List Nat),
      fallbackPass maps fs imgSize keys textPh picPh = .ok r →
      r.2.1 = keys.map Prod.fst ∧
        r.2.2.1 <+: textPh.map ShapeD.sid ∧
        r.2.2.2 <+: picPh.map ShapeD.sid := by
  intro keys
  induction keys with
  | nil =>
    intro textPh picPh r h
    simp only [fallbackPass] at h
    cases h
    exact ⟨rfl, List.nil_prefix, List.nil_prefix⟩
  | cons kv rest ih =>
    intro textPh picPh r h
    obtain ⟨k, v⟩ := kv
    cases hrec : fallbackPass maps fs imgSize rest (fallbackFind maps k textPh picPh).2.1
        (fallbackFind maps k textPh picPh).2.2.1 with
    | error e =>
      exfalso
      cases hr1 : (fallbackFind maps k textPh picPh).1 with
      | none =>
        simp [fallbackPass, hr1, hrec, except_bind_ok, except_bind_err] at h
      | some sh =>
        by_cases hpic : isPictureShape sh
        · cases hrp : replacePicture sh v fs imgSize with
          | error e2 =>
            simp [fallbackPass, hr1, hpic, hrp, except_bind_ok, except_bind_err] at h
          | ok evs =>
            simp [fallbackPass, hr1, hpic, hrp, hrec, except_bind_ok, except_bind_err] at h
        · by_cases htf : sh.tf.isSome
          · by_cases hv : v = ""
            · simp [fallbackPass, hr1, hpic, htf, hv, hrec, except_bind_ok,
                except_bind_err] at h
            · simp [fallbackPass, hr1, hpic, htf, hv, hrec, except_bind_ok,
                except_bind_err] at h
          · simp [fallbackPass, hr1, hpic, htf, hrec, except_bind_ok, except_bind_err] at h
    | ok tl =>
      obtain ⟨htk, htp, hpp⟩ := ih _ _ tl hrec
      have hr2 : r.2 = (k :: tl.2.1,
          (fallbackFind maps k textPh picPh).2.2.2.1 ++ tl.2.2.1,
          (fallbackFind maps k textPh picPh).2.2.2.2 ++ tl.2.2.2) := by
        cases hr1 : (fallbackFind maps k textPh picPh).1 with
        | none =>
          simp [fallbackPass, hr1, hrec, except_bind_ok, except_bind_err] at h
          subst h
          rfl
        | some sh =>
          by_cases hpic : isPictureShape sh
          · cases hrp : replacePicture sh v fs imgSize with
            | error e2 =>
              simp [fallbackPass, hr1, hpic, hrp, except_bind_ok, except_bind_err] at h
            | ok evs =>
              simp [fallbackPass, hr1, hpic, hrp, hrec, except_bind_ok,
                except_bind_err] at h
              subst h
              rfl
          · by_cases htf : sh.tf.isSome
            · by_cases hv : v = ""
              · simp [fallbackPass, hr1, hpic, htf, hv, hrec, except_bind_ok,
                  except_bind_err] at h
                subst h
                rfl
              · simp [fallbackPass, hr1, hpic, htf, hv, hrec, except_bind_ok,
                  except_bind_err] at h
                subst h
                rfl
            · simp [fallbackPass, hr1, hpic, htf, hrec, except_bind_ok,
                except_bind_err] at h
              subst h
              rfl
      rcases fallbackFind_queues maps k textPh picPh with
        ⟨q1, q2, q3, q4⟩ | ⟨sh, restPh, he, q1, q2, q3, q4⟩ | ⟨sh, restPh, he, q1, q2, q3, q4⟩
      · refine ⟨?_, ?_, ?_⟩
        · rw [show r.2.1 = k :: tl.2.1 from by rw [hr2]]
          rw [htk, List.map_cons]
        · rw [show r.2.2.1 = (fallbackFind maps k textPh picPh).2.2.2.1 ++ tl.2.2.1 from by
            rw [hr2]]
          rw [q3, List.nil_append]
          rw [q1] at htp
          exact htp
        · rw [show r.2.2.2 = (fallbackFind maps k textPh picPh).2.2.2.2 ++ tl.2.2.2 from by
            rw [hr2]]
          rw [q4, List.nil_append]
          rw [q2] at hpp
          exact hpp
      · refine ⟨?_, ?_, ?_⟩
        · rw [show r.2.1 = k :: tl.2.1 from by rw [hr2]]
          rw [htk, List.map_cons]
        · rw [show r.2.2.1 = (fallbackFind maps k textPh picPh).2.2.2.1 ++ tl.2.2.1 from by
            rw [hr2]]
          rw [q3, he, List.map_cons]
          rw [q1] at htp
          exact prefix_cons sh.sid tl.2.2.1 (restPh.map ShapeD.sid) htp
        · rw [show r.2.2.2 = (fallbackFind maps k textPh picPh).2.2.2.2 ++ tl.2.2.2 from by
            rw [hr2]]
          rw [q4, List.nil_append]
          rw [q2] at hpp
          exact hpp
      · refine ⟨?_, ?_, ?_⟩
        · rw [show r.2.1 = k :: tl.2.1 from by rw [hr2]]
          rw [htk, List.map_cons]
        · rw [show r.2.2.1 = (fallbackFind maps k textPh picPh).2.2.2.1 ++ tl.2.2.1 from by
            rw [hr2]]
          rw [q3, List.nil_append]
          rw [q1] at htp
          exact htp
        · rw [show r.2.2.2 = (fallbackFind maps k textPh picPh).2.2.2.2 ++ tl.2.2.2 from by
            rw [hr2]]
          rw [q4, he, List.map_cons]
          rw [q2] at hpp
          exact prefix_cons sh.sid tl.2.2.2 (restPh.map ShapeD.sid) hpp

/-- C8 (corrected claim): the fallback pass runs for every top-level scalar
content key — a key the structural pass already consumed is not excluded —
and generic placeholders are consumed purely by queue position: the popped
text (resp. picture) placeholder ids form an initial segment of the
document-order placeholder queues, regardless of which shapes earlier
bindings on the slide already used. -/
theorem c8_fallback_all_keys (slide : ShapeForest) (content : CEntries)
    (fs : String → Bool) (imgSize : String → Option (Nat × Nat)) (fo : FillOut)
    (h : fillSlide slide content fs imgSize = .ok fo) :
    fo.fallbackKeys = (scalarKeys content).map Prod.fst ∧
      fo.textPopped <+: ((buildMaps (iterForest slide)).textPh.map ShapeD.sid) ∧
      fo.picPopped <+: ((buildMaps (iterForest slide)).picPh.map ShapeD.sid) := by
  cases hs : structuralPass (flattenEs [] content) fs imgSize (iterPathsForest [] 1 slide)
      (detectPrefix slide) with
  | error e =>
    exfalso
    simp [fillSlide, hs, except_bind_ok, except_bind_err] at h
  | ok s =>
    cases hf : fallbackPass (buildMaps (iterForest slide)) fs imgSize (scalarKeys content)
        (buildMaps (iterForest slide)).textPh (buildMaps (iterForest slide)).picPh with
    | error e =>
      exfalso
      simp [fillSlide, hs, hf, except_bind_ok, except_bind_err] at h
    | ok f =>
      have hfo : fo = ⟨s.1 ++ f.1, s.2.1, s.2.2, f.2.1, f.2.2.1, f.2.2.2⟩ := by
        simp [fillSlide, hs, hf, except_bind_ok, except_bind_err] at h
        subst h
        rfl
      obtain ⟨h1, h2, h3⟩ := fallbackPass_spec (buildMaps (iterForest slide)) fs imgSize
        (scalarKeys content) (buildMaps (iterForest slide)).textPh
        (buildMaps (iterForest slide)).picPh f hf
      rw [hfo]
      exact ⟨h1, h2, h3⟩

/-- C8 witness: the counterexample run satisfies the corrected claim. -/
theorem c8_fallback_all_keys_witness :
    fillSlide c8slide c8content (fun _ => false) (fun _ => none) = .ok c8out ∧
      (c8out.fallbackKeys = (scalarKeys c8content).map Prod.fst ∧
        c8out.textPopped <+: ((buildMaps (iterForest c8slide)).textPh.map ShapeD.sid) ∧
        c8out.picPopped <+: ((buildMaps (iterForest c8slide)).picPh.map ShapeD.sid)) :=
  ⟨by decide, c8_fallback_all_keys c8slide c8content (fun _ => false) (fun _ => none) c8out
    (by decide)⟩

/-! ### C7: grow versus shrink in the text adjuster -/

theorem qMul_eq (a b : ℚ) : qMul a b = a * b := by
  unfold qMul
  rw [← Rat.divInt_mul_divInt', Rat.num_divInt_den, Rat.num_divInt_den]

theorem qDiv_eq (a b : ℚ) : qDiv a b = a / b := by
  unfold qDiv
  rw [Rat.div_def']

/-- C7 (counterexample): a six-character 28pt title in a 1,000,000 EMU box
has estimated width 2,133,600 EMU, exceeding the right-hand limit minus
padding (1,480,000 EMU) — the claim's shrink branch — yet the adjuster grows
the shape to 1,480,000 EMU and leaves every font size untouched. -/
theorem c7_counterexample :
    estimateTextWidth cT = (2133600 : ℚ) ∧
      ((findRightLimit [cT, cO] 0 9144000 - H_PADDING : Int) : ℚ) = 1480000 ∧
      ¬ estimateTextWidth cT ≤ ((findRightLimit [cT, cO] 0 9144000 - H_PADDING : Int) : ℚ) ∧
      cT.width = 1000000 ∧
      ((adjustTextShape [cT, cO] 0 9144000).getD 0 defaultShape).width = 1480000 ∧
      ((adjustTextShape [cT, cO] 0 9144000).getD 0 defaultShape).tf = cT.tf := by
  decide

theorem foldl_preserve {α β : Type} (P : α → Prop) (f : α → β → α)
    (hf : ∀ a b, P a → P (f a b)) :
    ∀ (l : List β) (a : α), P a → P (l.foldl f a) := by
  intro l
  induction l with
  | nil =>
    intro a ha
    exact ha
  | cons x rest ih =>
    intro a ha
    exact ih (f a x) (hf a x ha)

theorem getD_oob (l : List ShapeD) (i : Nat) (h : l.length ≤ i) :
    l.getD i defaultShape = defaultShape := by
  induction l generalizing i with
  | nil => rfl
  | cons a t ih =>
    cases i with
    | zero => simp at h
    | succ j => exact ih j (by simpa using h)

theorem findBackgroundIdx_ne (shapes : List ShapeD) (tIdx : Nat) (bi : Nat)
    (h : findBackgroundIdx shapes tIdx = some bi) : bi ≠ tIdx := by
  simp only [findBackgroundIdx] at h
  refine foldl_preserve (fun cand => ∀ ci, cand = some ci → ci ≠ tIdx) _ ?_
    shapes.enum none (by intro ci hci; cases hci) bi h
  intro cand e hPc
  dsimp only
  split
  · exact hPc
  · rename_i hne
    split
    · exact hPc
    · split
      · exact hPc
      · split
        · exact hPc
        · split
          · intro ci hci
            cases hci
            exact hne
          · split
            · intro ci hci
              cases hci
              exact hne
            · exact hPc

theorem estimateTextWidth_default : estimateTextWidth defaultShape = 0 := rfl

/-- C7 (corrected claim): with `tw` the estimated text width (floored at the
current width), `avail = max width (limit − left)` and
`target = min (max width (tw + padding)) avail`, the shape grows exactly when
`target > width` — even when the estimate exceeds `limit − padding` — to
width `int target ≤ avail`, fonts untouched; otherwise, when
`avail / tw < 1`, every explicitly sized run is scaled by
`max (avail / tw) 0.6`, which never goes below 60 percent of the original
size (28pt stays at least 16.8pt); otherwise nothing changes. -/
theorem c7_grow_or_shrink (shapes : List ShapeD) (tIdx : Nat) (slideWidth : Int)
    (t : ShapeD) (tw avail target : ℚ)
    (ht : t = shapes.getD tIdx defaultShape)
    (htw : tw = estimateTextWidth t) (h0 : 0 < tw)
    (havail : avail = max (t.width : ℚ)
      (qSub ((findRightLimit shapes tIdx slideWidth - H_PADDING : Int) : ℚ) (t.left : ℚ)))
    (htarget : target = min (max (t.width : ℚ) (qAdd tw (H_PADDING : ℚ))) avail) :
    ((t.width : ℚ) < target →
      ((adjustTextShape shapes tIdx slideWidth).getD tIdx defaultShape).width =
          pyInt target ∧
        ((adjustTextShape shapes tIdx slideWidth).getD tIdx defaultShape).tf = t.tf ∧
        target ≤ avail) ∧
    (¬ (t.width : ℚ) < target →
      (qDiv avail tw < 1 →
        adjustTextShape shapes tIdx slideWidth =
          shapes.set tIdx
            { t with tf := t.tf.map (fun tf => shrinkFontTF tf (qDiv avail tw)) }) ∧
      (¬ qDiv avail tw < 1 → adjustTextShape shapes tIdx slideWidth = shapes)) ∧
    ∀ (tf : TextFrame) (r : ℚ),
      shrinkFontTF tf r = tf.map (fun para =>
        para.map (fun run =>
          match run.size with
          | some sz => { run with size := some (qMul sz (max r (Rat.divInt 3 5))) }
          | none => run)) ∧
      ∀ sz : ℚ, 0 ≤ sz → qMul (Rat.divInt 3 5) sz ≤ qMul (max r (Rat.divInt 3 5)) sz := by
  have hlen : tIdx < shapes.length := by
    by_contra hge
    have hd : shapes.getD tIdx defaultShape = defaultShape :=
      getD_oob shapes tIdx (by omega)
    rw [htw, ht, hd, estimateTextWidth_default] at h0
    exact lt_irrefl 0 h0
  subst htarget havail htw ht
  refine ⟨?_, ?_, ?_⟩
  · intro hlt
    simp only [adjustTextShape]
    rw [if_neg (not_le.mpr h0), if_pos hlt]
    split
    · rw [set_getD_self shapes tIdx _ hlen]
      exact ⟨rfl, rfl, min_le_right _ _⟩
    · rename_i bi hbg
      rw [set_getD_ne _ bi tIdx _ (findBackgroundIdx_ne _ tIdx bi hbg)]
      rw [set_getD_self shapes tIdx _ hlen]
      exact ⟨rfl, rfl, min_le_right _ _⟩
  · intro hnlt
    constructor
    · intro hr
      simp only [adjustTextShape]
      rw [if_neg (not_le.mpr h0), if_neg hnlt, if_pos (ne_of_gt h0), if_pos hr]
    · intro hnr
      simp only [adjustTextShape]
      rw [if_neg (not_le.mpr h0), if_neg hnlt, if_pos (ne_of_gt h0), if_neg hnr]
  · intro tf r
    constructor
    · rfl
    · intro sz hsz
      rw [qMul_eq, qMul_eq]
      exact mul_le_mul_of_nonneg_right (le_max_right r _) hsz

/-- C7 witness: the counterexample inputs satisfy the corrected claim's grow
branch. -/
theorem c7_grow_or_shrink_witness :
    ((adjustTextShape [cT, cO] 0 9144000).getD 0 defaultShape).width =
        pyInt (1480000 : ℚ) ∧
      ((adjustTextShape [cT, cO] 0 9144000).getD 0 defaultShape).tf = cT.tf ∧
      (1480000 : ℚ) ≤ 1480000 :=
  (c7_grow_or_shrink [cT, cO] 0 9144000 cT 2133600 1480000 1480000 (by decide) (by decide)
    (by decide) (by decide) (by decide)).1 (by decide)

/-! ### C6: prefix detection -/

/-- C6 (counterexample): "图页" and "长长页" occur once each; the longer token
appears later, and the binder picks the earlier "图页", not the longer
"长长页"; additionally the segment "a_页x" contains the marker character yet
contributes no token at all, because the marker sits after the underscore. -/
theorem c6_counterexample :
    detectPrefix c6slide = some "图页" ∧
      prefixTokens c6slide = ["图页", "长长页"] ∧
      (prefixTokens c6slide).count "长长页" = (prefixTokens c6slide).count "图页" ∧
      "图页".data.length < "长长页".data.length ∧
      strContains "a_页x" "页" = true ∧
      extractPrefix "a_页x" = none := by
  decide

theorem cntOf_cons (a : String × Nat) (t : List (String × Nat)) (x : String) :
    cntOf (a :: t) x = if a.1 = x then a.2 else cntOf t x := by
  unfold cntOf
  by_cases h : a.1 = x
  · rw [List.find?_cons_of_pos _ (by simp [h])]
    simp [h]
  · rw [List.find?_cons_of_neg _ (by simp [h])]
    simp [h]

theorem bump_cnt (m : List (String × Nat)) (k x : String) :
    cntOf (bump m k) x = if x = k then cntOf m k + 1 else cntOf m x := by
  induction m with
  | nil =>
    rw [show bump [] k = [(k, 1)] from rfl, cntOf_cons]
    by_cases hx : x = k
    · subst hx
      rw [if_pos rfl, if_pos rfl]
      rfl
    · rw [if_neg (fun hh => hx hh.symm), if_neg hx]
  | cons a t ih =>
    obtain ⟨ak, an⟩ := a
    by_cases hak : ak = k
    · subst hak
      rw [show bump ((ak, an) :: t) ak = (ak, an + 1) :: t from by simp [bump]]
      by_cases hx : x = ak
      · subst hx
        simp [cntOf_cons]
      · simp [cntOf_cons, hx, Ne.symm hx]
    · rw [show bump ((ak, an) :: t) k = (ak, an) :: bump t k from by simp [bump, hak]]
      by_cases hx : x = ak
      · subst hx
        simp [cntOf_cons, hak]
      · simp [cntOf_cons, Ne.symm hx, ih, hak]

theorem bump_keys (m : List (String × Nat)) (k : String) :
    (bump m k).map Prod.fst =
      if k ∈ m.map Prod.fst then m.map Prod.fst else m.map Prod.fst ++ [k] := by
  induction m with
  | nil => simp [bump]
  | cons a t ih =>
    obtain ⟨ak, an⟩ := a
    by_cases hak : ak = k
    · subst hak
      simp [bump]
    · by_cases hk : k ∈ t.map Prod.fst
      · simp [bump, hak, ih, hk, Ne.symm hak]
      · simp [bump, hak, ih, hk, Ne.symm hak]

theorem find_mem_nodup (m : List (String × Nat)) (e : String × Nat)
    (hnd : (m.map Prod.fst).Nodup) (he : e ∈ m) :
    m.find? (fun x => x.1 = e.1) = some e := by
  induction m with
  | nil => cases he
  | cons a t ih =>
    rw [List.map_cons, List.nodup_cons] at hnd
    rcases List.mem_cons.mp he with h | h
    · subst h
      rw [List.find?_cons_of_pos _ (by simp)]
    · have hne : a.1 ≠ e.1 := by
        intro hx
        exact hnd.1 (hx ▸ List.mem_map.mpr ⟨e, h, rfl⟩)
      rw [List.find?_cons_of_neg _ (by simp [hne])]
      exact ih hnd.2 h

theorem firstIdx_cons (t : String) (rest : List String) (x : String) :
    firstIdx (t :: rest) x = if t = x then 0 else firstIdx rest x + 1 := rfl

theorem firstIdx_append_mem (pre suf : List String) (a : String) (h : a ∈ pre) :
    firstIdx (pre ++ suf) a < pre.length := by
  induction pre with
  | nil => cases h
  | cons x rest ih =>
    by_cases hx : x = a
    · simp [firstIdx, hx]
    · have h2 : a ∈ rest := by
        rcases List.mem_cons.mp h with h3 | h3
        · exact absurd h3.symm hx
        · exact h3
      rw [List.cons_append, firstIdx_cons, if_neg hx, List.length_cons]
      exact Nat.succ_lt_succ (ih h2)

theorem firstIdx_append_not_mem (pre suf : List String) (a : String) (h : a ∉ pre) :
    firstIdx (pre ++ suf) a = pre.length + firstIdx suf a := by
  induction pre with
  | nil => simp [firstIdx]
  | cons x rest ih =>
    have hx : x ≠ a := fun he => h (he ▸ List.mem_cons_self x rest)
    have h2 : a ∉ rest := fun hm => h (List.mem_cons_of_mem x hm)
    rw [List.cons_append, firstIdx_cons, if_neg hx, ih h2, List.length_cons]
    omega

theorem counter_go (toks : List String) :
    ∀ (suf pre : List String) (m : List (String × Nat)),
      toks = pre ++ suf →
      (m.map Prod.fst).Nodup →
      (∀ x, x ∈ m.map Prod.fst ↔ x ∈ pre) →
      (∀ x, cntOf m x = pre.count x) →
      List.Pairwise (fun a b => firstIdx toks a < firstIdx toks b) (m.map Prod.fst) →
      ((suf.foldl bump m).map Prod.fst).Nodup ∧
        (∀ x, x ∈ (suf.foldl bump m).map Prod.fst ↔ x ∈ pre ++ suf) ∧
        (∀ x, cntOf (suf.foldl bump m) x = (pre ++ suf).count x) ∧
        List.Pairwise (fun a b => firstIdx toks a < firstIdx toks b)
          ((suf.foldl bump m).map Prod.fst) := by
  intro suf
  induction suf with
  | nil =>
    intro pre m htoks h1 h2 h3 h4
    refine ⟨h1, ?_, ?_, h4⟩
    · intro x
      rw [List.append_nil]
      exact h2 x
    · intro x
      rw [List.append_nil]
      exact h3 x
  | cons k rest ih =>
    intro pre m htoks h1 h2 h3 h4
    have htoks2 : toks = (pre ++ [k]) ++ rest := by
      rw [List.append_assoc]
      exact htoks
    have hnd2 : ((bump m k).map Prod.fst).Nodup := by
      rw [bump_keys]
      split
      · exact h1
      · rename_i hk
        rw [List.nodup_append]
        refine ⟨h1, List.nodup_singleton k, ?_⟩
        intro a ha hb
        rw [List.mem_singleton] at hb
        subst hb
        exact hk ha
    have hmem2 : ∀ x, x ∈ (bump m k).map Prod.fst ↔ x ∈ pre ++ [k] := by
      intro x
      rw [bump_keys]
      split
      · rename_i hk
        simp only [List.mem_append, List.mem_singleton]
        constructor
        · intro hx
          exact Or.inl ((h2 x).mp hx)
        · intro hx
          rcases hx with hx | hx
          · exact (h2 x).mpr hx
          · subst hx
            exact hk
      · simp only [List.mem_append, List.mem_singleton, h2 x]
    have hcnt2 : ∀ x, cntOf (bump m k) x = (pre ++ [k]).count x := by
      intro x
      rw [bump_cnt, List.count_append]
      by_cases hx : x = k
      · rw [if_pos hx, h3 k, hx]
        simp
      · rw [if_neg hx, h3 x]
        simp [List.count_singleton', hx]
    have hpw2 : List.Pairwise (fun a b => firstIdx toks a < firstIdx toks b)
        ((bump m k).map Prod.fst) := by
      rw [bump_keys]
      split
      · exact h4
      · rename_i hk
        rw [List.pairwise_append]
        refine ⟨h4, List.pairwise_singleton _ _, ?_⟩
        intro a ha b hb
        rw [List.mem_singleton] at hb
        rw [hb]
        have hapre : a ∈ pre := (h2 a).mp ha
        have hknp : k ∉ pre := fun hkp => hk ((h2 k).mpr hkp)
        rw [htoks]
        have l1 := firstIdx_append_mem pre (k :: rest) a hapre
        have l2 := firstIdx_append_not_mem pre (k :: rest) k hknp
        rw [l2]
        have l3 : firstIdx (k :: rest) k = 0 := by simp [firstIdx_cons]
        omega
    obtain ⟨a1, a2, a3, a4⟩ := ih (pre ++ [k]) (bump m k) htoks2 hnd2 hmem2 hcnt2 hpw2
    rw [List.foldl_cons]
    refine ⟨a1, ?_, ?_, a4⟩
    · intro x
      have := a2 x
      rw [List.append_assoc] at this
      exact this
    · intro x
      have := a3 x
      rw [List.append_assoc] at this
      exact this

theorem counterOf_spec (toks : List String) :
    ((counterOf toks).map Prod.fst).Nodup ∧
      (∀ x, x ∈ (counterOf toks).map Prod.fst ↔ x ∈ toks) ∧
      (∀ e ∈ counterOf toks, e.2 = toks.count e.1) ∧
      List.Pairwise (fun a b => firstIdx toks a < firstIdx toks b)
        ((counterOf toks).map Prod.fst) := by
  obtain ⟨a1, a2, a3, a4⟩ := counter_go toks toks [] [] rfl List.nodup_nil
    (by simp) (fun x => rfl) List.Pairwise.nil
  refine ⟨a1, ?_, ?_, a4⟩
  · intro x
    have := a2 x
    simpa using this
  · intro e he
    have hf := find_mem_nodup (counterOf toks) e a1 he
    have h : cntOf (counterOf toks) e.1 = ([] ++ toks).count e.1 := a3 e.1
    rw [show cntOf (counterOf toks) e.1 = e.2 from by unfold cntOf; rw [hf]; rfl] at h
    simpa using h

theorem pyMax_first (xs : List (String × Nat)) :
    ∀ b : String × Nat,
      (∀ y ∈ xs, y.2 ≤ (xs.foldl (fun b y => if y.2 > b.2 then y else b) b).2) ∧
        b.2 ≤ (xs.foldl (fun b y => if y.2 > b.2 then y else b) b).2 ∧
        ((xs.foldl (fun b y => if y.2 > b.2 then y else b) b) = b ∨
          ∃ l1 l2, xs = l1 ++ (xs.foldl (fun b y => if y.2 > b.2 then y else b) b) :: l2 ∧
            b.2 < (xs.foldl (fun b y => if y.2 > b.2 then y else b) b).2 ∧
            ∀ z ∈ l1, z.2 < (xs.foldl (fun b y => if y.2 > b.2 then y else b) b).2) := by
  induction xs with
  | nil =>
    intro b
    refine ⟨?_, le_refl _, Or.inl rfl⟩
    intro y hy
    cases hy
  | cons y0 rest ih =>
    intro b
    by_cases hcond : y0.2 > b.2
    · have hstep : (y0 :: rest).foldl (fun b y => if y.2 > b.2 then y else b) b =
          rest.foldl (fun b y => if y.2 > b.2 then y else b) y0 := by
        rw [List.foldl_cons, if_pos hcond]
      rw [hstep]
      obtain ⟨i1, i2, i3⟩ := ih y0
      refine ⟨?_, le_trans (le_of_lt hcond) i2, ?_⟩
      · intro y hy
        rcases List.mem_cons.mp hy with h | h
        · subst h
          exact i2
        · exact i1 y h
      · rcases i3 with h | ⟨l1, l2, hsplit, hlt, hall⟩
        · refine Or.inr ⟨[], rest, ?_, ?_, ?_⟩
          · rw [h]
            rfl
          · rw [h]
            exact hcond
          · intro z hz
            cases hz

        · refine Or.inr ⟨y0 :: l1, l2, ?_, lt_trans hcond hlt, ?_⟩
          · rw [List.cons_append, ← hsplit]
          · intro z hz
            rcases List.mem_cons.mp hz with h | h
            · subst h
              exact hlt
            · exact hall z h
    · have hstep : (y0 :: rest).foldl (fun b y => if y.2 > b.2 then y else b) b =
          rest.foldl (fun b y => if y.2 > b.2 then y else b) b := by
        rw [List.foldl_cons, if_neg hcond]
      rw [hstep]
      obtain ⟨i1, i2, i3⟩ := ih b
      refine ⟨?_, i2, ?_⟩
      · intro y hy
        rcases List.mem_cons.mp hy with h | h
        · subst h
          exact le_trans (not_lt.mp hcond) i2
        · exact i1 y h
      · rcases i3 with h | ⟨l1, l2, hsplit, hlt, hall⟩
        · exact Or.inl h
        · refine Or.inr ⟨y0 :: l1, l2, ?_, hlt, ?_⟩
          · rw [List.cons_append, ← hsplit]
          · intro z hz
            rcases List.mem_cons.mp hz with h | h
            · subst h
              exact lt_of_le_of_lt (not_lt.mp hcond) hlt
            · exact hall z h

theorem pyMaxBySnd_first (l : List (String × Nat)) (r : String × Nat)
    (h : pyMaxBySnd l = some r) :
    r ∈ l ∧ (∀ y ∈ l, y.2 ≤ r.2) ∧
      ∃ l1 l2, l = l1 ++ r :: l2 ∧ ∀ z ∈ l1, z.2 < r.2 := by
  cases l with
  | nil => cases h
  | cons x xs =>
    rw [pyMaxBySnd] at h
    have hr : xs.foldl (fun b y => if y.2 > b.2 then y else b) x = r := by
      simpa using h
    obtain ⟨i1, i2, i3⟩ := pyMax_first xs x
    rw [hr] at i1 i2 i3
    rcases i3 with h3 | ⟨l1, l2, hsplit, hlt, hall⟩
    · refine ⟨by rw [h3]; exact List.mem_cons_self _ _, ?_, [], xs, by rw [h3]; rfl, ?_⟩
      · intro y hy
        rcases List.mem_cons.mp hy with h4 | h4
        · subst h4
          exact i2
        · exact i1 y h4
      · intro z hz
        cases hz
    · refine ⟨?_, ?_, x :: l1, l2, ?_, ?_⟩
      · rw [hsplit]
        exact List.mem_cons_of_mem x (List.mem_append.mpr (Or.inr (List.mem_cons_self r l2)))
      · intro y hy
        rcases List.mem_cons.mp hy with h4 | h4
        · subst h4
          exact i2
        · exact i1 y h4
      · rw [List.cons_append, ← hsplit]
      · intro z hz
        rcases List.mem_cons.mp hz with h4 | h4
        · subst h4
          exact hlt
        · exact hall z h4

/-- C6 (corrected claim): the detected prefix is a token of maximal frequency
among the tokens preceding the first underscore of segments whose *token*
contains the page marker; a frequency tie is broken by the earliest first
occurrence in traversal order, not by string length. -/
theorem c6_detect_first_max (slide : ShapeForest) (p : String)
    (h : detectPrefix slide = some p) :
    p ∈ prefixTokens slide ∧
      (∀ q ∈ prefixTokens slide,
        (prefixTokens slide).count q ≤ (prefixTokens slide).count p) ∧
      ∀ q ∈ prefixTokens slide,
        (prefixTokens slide).count q = (prefixTokens slide).count p →
        firstIdx (prefixTokens slide) p ≤ firstIdx (prefixTokens slide) q := by
  unfold detectPrefix at h
  cases hmax : pyMaxBySnd (counterOf (prefixTokens slide)) with
  | none =>
    rw [hmax] at h
    cases h
  | some r =>
    rw [hmax] at h
    have hp : r.1 = p := by simpa using h
    obtain ⟨hmem, hmax2, l1, l2, hsplit, hfirst⟩ :=
      pyMaxBySnd_first (counterOf (prefixTokens slide)) r hmax
    obtain ⟨hnd, hiff, hcnt, hpw⟩ := counterOf_spec (prefixTokens slide)
    have hrc : r.2 = (prefixTokens slide).count p := by
      rw [← hp]
      exact hcnt r hmem
    have hpmem : p ∈ prefixTokens slide := by
      rw [← hp]
      exact (hiff r.1).mp (List.mem_map.mpr ⟨r, hmem, rfl⟩)
    refine ⟨hpmem, ?_, ?_⟩
    · intro q hq
      obtain ⟨e, he, heq⟩ := List.mem_map.mp ((hiff q).mpr hq)
      have h1 := hmax2 e he
      have h2 := hcnt e he
      rw [heq] at h2
      omega
    · intro q hq hqc
      by_cases hqp : q = p
      · subst hqp
        exact le_refl _
      · obtain ⟨e, he, heq⟩ := List.mem_map.mp ((hiff q).mpr hq)
        have h2 := hcnt e he
        rw [heq] at h2
        have hel : e ∉ l1 := by
          intro hl
          have := hfirst e hl
          omega
        have hmem2 : e ∈ r :: l2 := by
          have h5 : e ∈ l1 ++ r :: l2 := by
            rw [← hsplit]
            exact he
          rcases List.mem_append.mp h5 with h6 | h6
          · exact absurd h6 hel
          · exact h6
        have hne : e ≠ r := by
          intro hf2
          apply hqp
          rw [← heq, hf2, hp]
        have hel2 : e ∈ l2 := by
          rcases List.mem_cons.mp hmem2 with h5 | h5
          · exact absurd h5 hne
          · exact h5
        rw [hsplit, List.map_append, List.map_cons] at hpw
        have hpair := (List.pairwise_append.mp hpw).2.1
        have h7 := (List.pairwise_cons.mp hpair).1 e.1 (List.mem_map.mpr ⟨e, hel2, rfl⟩)
        rw [hp, heq] at h7
        exact le_of_lt h7

/-- C6 witness: the counterexample slide satisfies the corrected claim with
the earlier-occurring token. -/
theorem c6_detect_first_max_witness :
    detectPrefix c6slide = some "图页" ∧
      ("图页" ∈ prefixTokens c6slide ∧
        (∀ q ∈ prefixTokens c6slide,
          (prefixTokens c6slide).count q ≤ (prefixTokens c6slide).count "图页") ∧
        ∀ q ∈ prefixTokens c6slide,
          (prefixTokens c6slide).count q = (prefixTokens c6slide).count "图页" →
          firstIdx (prefixTokens c6slide) "图页" ≤ firstIdx (prefixTokens c6slide) q) :=
  ⟨by decide, c6_detect_first_max c6slide "图页" (by decide)⟩

end S2S
